import Mathlib

/-!
Verification of the Citation Resolution Engine of the brazil-law-mcp
repository (src/citation/parser.ts, formatter.ts, validator.ts,
src/utils/statute-id.ts, src/tools/get-provision.ts).

Strings are modelled as `List Char`.  The ECMAScript regular expressions of
the source are embedded as continuation-passing matchers that reproduce the
regex semantics (leftmost match, greedy repetition with backtracking,
alternation in written order, case-insensitive comparison via lowercasing).
Unicode NFD decomposition is modelled for the Latin-1 precomposed letters
that occur in Brazilian legal text; all other characters are NFD-inert.
-/

namespace BrazilLaw

universe u

/-! ## Character classes and basic string operations (ECMAScript semantics) -/

/-- Lowercasing of a character: ASCII A-Z and the Latin-1 uppercase letters
(U+00C0..U+00DE except the multiplication sign) map to their lowercase
counterparts, all other characters are fixed.  This is the fragment of
`String.prototype.toLowerCase` / regex `/i`-folding exercised by the code. -/
def toLowerC (c : Char) : Char :=
  if 65 ≤ c.toNat ∧ c.toNat ≤ 90 then Char.ofNat (c.toNat + 32)
  else if 192 ≤ c.toNat ∧ c.toNat ≤ 222 ∧ c.toNat ≠ 215 then Char.ofNat (c.toNat + 32)
  else c

def toLowerL (cs : List Char) : List Char := cs.map toLowerC

/-- ECMAScript WhiteSpace ∪ LineTerminator, the set used by both
`String.prototype.trim` and the regex class `\s`. -/
def isWsChar (c : Char) : Bool :=
  let n := c.toNat
  n = 0x20 ∨ n = 0x9 ∨ n = 0xa ∨ n = 0xb ∨ n = 0xc ∨ n = 0xd ∨
  n = 0xa0 ∨ n = 0x1680 ∨ (0x2000 ≤ n ∧ n ≤ 0x200a) ∨
  n = 0x2028 ∨ n = 0x2029 ∨ n = 0x202f ∨ n = 0x205f ∨ n = 0x3000 ∨ n = 0xfeff

/-- Regex `\d`. -/
def isDigitC (c : Char) : Bool := 48 ≤ c.toNat ∧ c.toNat ≤ 57

/-- Regex `\w`: `[A-Za-z0-9_]`. -/
def isWordC (c : Char) : Bool :=
  (65 ≤ c.toNat ∧ c.toNat ≤ 90) ∨ (97 ≤ c.toNat ∧ c.toNat ≤ 122) ∨
  (48 ≤ c.toNat ∧ c.toNat ≤ 57) ∨ c = '_'

/-- Regex class `[ºªo°]` under `/i`: U+00BA, U+00AA, o, O, U+00B0. -/
def isOrdMark (c : Char) : Bool :=
  c = 'º' ∨ c = 'ª' ∨ c = 'o' ∨ c = 'O' ∨ c = '°'

/-- Regex class `[IVXLCDM]` under `/i`. -/
def isRomanC (c : Char) : Bool :=
  let l := toLowerC c
  l = 'i' ∨ l = 'v' ∨ l = 'x' ∨ l = 'l' ∨ l = 'c' ∨ l = 'd' ∨ l = 'm'

/-- Regex `.` (no `/s` flag): any character except a line terminator. -/
def isDotAny (c : Char) : Bool :=
  ¬ (c = '\n' ∨ c = '\r' ∨ c.toNat = 0x2028 ∨ c.toNat = 0x2029)

/-- Regex class `[\d.]`. -/
def isNumDot (c : Char) : Bool := isDigitC c ∨ c = '.'

/-- Regex class `[ºo.]` under `/i` (the optional marker after `n` in `nº`). -/
def isNOrdCls (c : Char) : Bool := c = 'º' ∨ toLowerC c = 'o' ∨ c = '.'

/-- `String.prototype.trim`: drop ECMAScript whitespace from both ends. -/
def trimList (cs : List Char) : List Char :=
  ((cs.dropWhile isWsChar).reverse.dropWhile isWsChar).reverse

/-- Combining diacritical marks U+0300..U+036F, the class stripped by
`removeAccents` (parser.ts line 57). -/
def isCombining (c : Char) : Bool := 0x300 ≤ c.toNat ∧ c.toNat ≤ 0x36f

/-- Canonical (NFD) decompositions of the Latin-1 precomposed letters of
Portuguese text: precomposed character, base letter, combining mark. -/
def NFD_TABLE : List (Char × Char × Char) :=
  [('á', 'a', '\u0301'), ('à', 'a', '\u0300'), ('â', 'a', '\u0302'),
   ('ã', 'a', '\u0303'), ('ä', 'a', '\u0308'),
   ('é', 'e', '\u0301'), ('è', 'e', '\u0300'), ('ê', 'e', '\u0302'),
   ('í', 'i', '\u0301'), ('ì', 'i', '\u0300'), ('î', 'i', '\u0302'),
   ('ó', 'o', '\u0301'), ('ò', 'o', '\u0300'), ('ô', 'o', '\u0302'),
   ('õ', 'o', '\u0303'), ('ö', 'o', '\u0308'),
   ('ú', 'u', '\u0301'), ('ù', 'u', '\u0300'), ('û', 'u', '\u0302'),
   ('ü', 'u', '\u0308'), ('ç', 'c', '\u0327'), ('ñ', 'n', '\u0303'),
   ('Á', 'A', '\u0301'), ('À', 'A', '\u0300'), ('Â', 'A', '\u0302'),
   ('Ã', 'A', '\u0303'), ('Ä', 'A', '\u0308'),
   ('É', 'E', '\u0301'), ('È', 'E', '\u0300'), ('Ê', 'E', '\u0302'),
   ('Í', 'I', '\u0301'), ('Ì', 'I', '\u0300'), ('Î', 'I', '\u0302'),
   ('Ó', 'O', '\u0301'), ('Ò', 'O', '\u0300'), ('Ô', 'O', '\u0302'),
   ('Õ', 'O', '\u0303'), ('Ö', 'O', '\u0308'),
   ('Ú', 'U', '\u0301'), ('Ù', 'U', '\u0300'), ('Û', 'U', '\u0302'),
   ('Ü', 'U', '\u0308'), ('Ç', 'C', '\u0327'), ('Ñ', 'N', '\u0303')]

/-- Unicode NFD decomposition, restricted to the Latin-1 precomposed letters
of Portuguese text; every other character (including `º`, `ª`, `°`, which have
no canonical decomposition) is left alone. -/
def nfdChar (c : Char) : List Char :=
  match NFD_TABLE.find? (fun p => p.1 == c) with
  | some p => [p.2.1, p.2.2]
  | none => [c]

/-- parser.ts lines 56-58: `s.normalize('NFD').replace(/[̀-ͯ]/g, '')`. -/
def removeAccents (cs : List Char) : List Char :=
  (cs.flatMap nfdChar).filter (fun c => ¬ isCombining c)

/-- Trailing-ordinal stripping, first half of `stripOrdinal` (parser.ts
line 50): replace `/[ºªo°]+$/i` by the empty string. -/
def dropTrailingOrd (cs : List Char) : List Char :=
  (cs.reverse.dropWhile isOrdMark).reverse

/-- parser.ts lines 49-51: `s.replace(/[ºªo°]+$/i, '').trim()`. -/
def stripOrdinal (cs : List Char) : List Char :=
  trimList (dropTrailingOrd cs)

/-- Digit value of a decimal digit character. -/
def digitVal (c : Char) : Nat := c.toNat - 48

def natOfDigits (ds : List Char) : Nat :=
  ds.foldl (fun acc c => acc * 10 + digitVal c) 0

/-- `parseInt(s, 10)` as used by the parser: the call sites guarantee the
argument starts with a decimal digit, so the value is the number denoted by
the maximal digit run. -/
def jsParseInt (cs : List Char) : Nat := natOfDigits (cs.takeWhile isDigitC)

/-- `s.replace(/\./g, '')`. -/
def removeDots (cs : List Char) : List Char := cs.filter (fun c => c ≠ '.')

/-! ## Regex engine

Continuation-passing matchers reproducing ECMAScript regex behaviour for the
patterns of this repository.  A matcher consumes characters from the input
and hands the consumed chunk plus the remaining input to its continuation;
repetition is greedy and backtracks by retrying shorter chunks, alternation
tries branches in written order, each with the full continuation. -/

/-- Match one character satisfying class `p`. -/
def charE {α : Type u} (p : Char → Bool) (cs : List Char)
    (k : List Char → List Char → Option α) : Option α :=
  match cs with
  | [] => none
  | x :: rest => if p x then k [x] rest else none

/-- Match a literal case-insensitively (`/i`); the consumed chunk keeps the
input's original characters. -/
def litCI {α : Type u} (pat : List Char) (cs : List Char)
    (k : List Char → List Char → Option α) : Option α :=
  match pat, cs with
  | [], cs => k [] cs
  | _ :: _, [] => none
  | p :: ps, x :: rest =>
    if toLowerC x = toLowerC p then
      litCI ps rest (fun con r => k (x :: con) r)
    else none

/-- Optional single character of class `p` (`x?`): greedily try consuming,
fall back to the empty match. -/
def optCls {α : Type u} (p : Char → Bool) (cs : List Char)
    (k : List Char → List Char → Option α) : Option α :=
  match cs with
  | [] => k [] []
  | x :: rest =>
    if p x then
      match k [x] rest with
      | some r => some r
      | none => k [] (x :: rest)
    else k [] (x :: rest)

/-- Optional sub-matcher (`(?:m)?`): greedily try `m` (with its own
backtracking), fall back to the empty match. -/
def optM {α : Type u}
    (m : List Char → (List Char → List Char → Option α) → Option α)
    (cs : List Char) (k : List Char → List Char → Option α) : Option α :=
  match m cs k with
  | some r => some r
  | none => k [] cs

/-- Number of leading characters of `cs` satisfying `p`. -/
def leadCount (p : Char → Bool) : List Char → Nat
  | [] => 0
  | x :: rest => if p x then leadCount p rest + 1 else 0

/-- Backtracking driver for greedy repetition: try `f n`, `f (n-1)`, …,
down to `f lo`. -/
def tryFrom {α : Type u} (f : Nat → Option α) (lo : Nat) : Nat → Option α
  | 0 => f 0
  | n + 1 =>
    match f (n + 1) with
    | some r => some r
    | none => if lo = n + 1 then none else tryFrom f lo n

/-- Greedy repetition `p{lo,hi}` over a character class (`hi = none` means
unbounded), with backtracking: the longest repetition is tried first. -/
def repCls {α : Type u} (p : Char → Bool) (lo : Nat) (hi : Option Nat)
    (cs : List Char) (k : List Char → List Char → Option α) : Option α :=
  let m := match hi with
    | some h => min h (leadCount p cs)
    | none => leadCount p cs
  if m < lo then none
  else tryFrom (fun n => k (cs.take n) (cs.drop n)) lo m

/-- Scan for the leftmost position where the unanchored matcher `f`
succeeds (`String.prototype.match` without `^`). -/
def scanFirst {β : Type u} (f : List Char → Option β) : List Char → Option β
  | [] => f []
  | c :: rest =>
    match f (c :: rest) with
    | some r => some r
    | none => scanFirst f rest

/-! ## The five citation regexes (parser.ts lines 61-79) -/

structure IdCaps where
  g1 : List Char
  g2 : List Char
  g3 : List Char
  g4 : List Char
  deriving DecidableEq, Repr

structure FullCaps where
  g1 : List Char
  g2 : List Char
  g3 : List Char
  g4 : List Char
  g5 : List Char
  g6 : List Char
  deriving DecidableEq, Repr

structure ShortCaps where
  g1 : List Char
  g2 : List Char
  g3 : List Char
  g4 : List Char
  deriving DecidableEq, Repr

structure AliasCaps where
  g1 : List Char
  g2 : List Char
  deriving DecidableEq, Repr

/-- Shared prefix `art\.?\s*(\d+[ºªo°]?)` of FULL_CITATION, SHORT_CITATION
and ALIAS_CITATION; the continuation receives the capture `\d+[ºªo°]?`. -/
def reArtNum {α : Type u} (cs : List Char)
    (k : List Char → List Char → Option α) : Option α :=
  litCI "art".data cs fun _ cs =>
  optCls (fun c => c = '.') cs fun _ cs =>
  repCls isWsChar 0 none cs fun _ cs =>
  repCls isDigitC 1 none cs fun ds cs =>
  optCls isOrdMark cs fun m cs =>
  k (ds ++ m) cs

/-- Branch `medida provis[oó]ria` of the law-type alternation. -/
def medidaLit {α : Type u} (cs : List Char)
    (k : List Char → List Char → Option α) : Option α :=
  litCI "medida provis".data cs fun c1 cs =>
  charE (fun c => toLowerC c = 'o' ∨ toLowerC c = 'ó') cs fun c2 cs =>
  litCI "ria".data cs fun c3 cs =>
  k (c1 ++ c2 ++ c3) cs

/-- Alternation `(lei|lei complementar|medida provis[oó]ria|decreto)`,
branches tried in written order, each with the full continuation. -/
def typeAlt {α : Type u} (cs : List Char)
    (k : List Char → List Char → Option α) : Option α :=
  match litCI "lei".data cs k with
  | some r => some r
  | none =>
  match litCI "lei complementar".data cs k with
  | some r => some r
  | none =>
  match medidaLit cs k with
  | some r => some r
  | none => litCI "decreto".data cs k

/-- Optional group `(?:n[ºo.]?\s*)?`. -/
def nGroup {α : Type u} (cs : List Char)
    (k : List Char → List Char → Option α) : Option α :=
  litCI "n".data cs fun c1 cs =>
  optCls isNOrdCls cs fun c2 cs =>
  repCls isWsChar 0 none cs fun c3 cs =>
  k (c1 ++ c2 ++ c3) cs

/-- FULL_CITATION (parser.ts line 61):
`/^art\.?\s*(\d+[ºªo°]?)\s*,?\s*(lei|lei complementar|medida provis[oó]ria|decreto)\s+(?:n[ºo.]?\s*)?(\d[\d.]*)\s*,\s*de\s+(\d{1,2})\s+de\s+(\w+)\s+de\s+(\d{4})/i`. -/
def matchFULL (cs : List Char) : Option FullCaps :=
  reArtNum cs fun g1 cs =>
  repCls isWsChar 0 none cs fun _ cs =>
  optCls (fun c => c = ',') cs fun _ cs =>
  repCls isWsChar 0 none cs fun _ cs =>
  typeAlt cs fun g2 cs =>
  repCls isWsChar 1 none cs fun _ cs =>
  optM nGroup cs fun _ cs =>
  charE isDigitC cs fun d0 cs =>
  repCls isNumDot 0 none cs fun ds cs =>
  repCls isWsChar 0 none cs fun _ cs =>
  charE (fun c => c = ',') cs fun _ cs =>
  repCls isWsChar 0 none cs fun _ cs =>
  litCI "de".data cs fun _ cs =>
  repCls isWsChar 1 none cs fun _ cs =>
  repCls isDigitC 1 (some 2) cs fun g4 cs =>
  repCls isWsChar 1 none cs fun _ cs =>
  litCI "de".data cs fun _ cs =>
  repCls isWsChar 1 none cs fun _ cs =>
  repCls isWordC 1 none cs fun g5 cs =>
  repCls isWsChar 1 none cs fun _ cs =>
  litCI "de".data cs fun _ cs =>
  repCls isWsChar 1 none cs fun _ cs =>
  repCls isDigitC 4 (some 4) cs fun g6 _ =>
  some ⟨g1, g2, d0 ++ ds, g4, g5, g6⟩

/-- SHORT_CITATION (parser.ts line 64):
`/^art\.?\s*(\d+[ºªo°]?)\s*,?\s*(lei|lei complementar|medida provis[oó]ria|decreto)\s+(?:n[ºo.]?\s*)?(\d[\d.]*)\s*\/\s*(\d{4})/i`. -/
def matchSHORT (cs : List Char) : Option ShortCaps :=
  reArtNum cs fun g1 cs =>
  repCls isWsChar 0 none cs fun _ cs =>
  optCls (fun c => c = ',') cs fun _ cs =>
  repCls isWsChar 0 none cs fun _ cs =>
  typeAlt cs fun g2 cs =>
  repCls isWsChar 1 none cs fun _ cs =>
  optM nGroup cs fun _ cs =>
  charE isDigitC cs fun d0 cs =>
  repCls isNumDot 0 none cs fun ds cs =>
  repCls isWsChar 0 none cs fun _ cs =>
  charE (fun c => c = '/') cs fun _ cs =>
  repCls isWsChar 0 none cs fun _ cs =>
  repCls isDigitC 4 (some 4) cs fun g4 _ =>
  some ⟨g1, g2, d0 ++ ds, g4⟩

/-- Alternation `(lei|lc|mp|decreto|constituicao)` of ID_CITATION. -/
def idTypeAlt {α : Type u} (cs : List Char)
    (k : List Char → List Char → Option α) : Option α :=
  match litCI "lei".data cs k with
  | some r => some r
  | none =>
  match litCI "lc".data cs k with
  | some r => some r
  | none =>
  match litCI "mp".data cs k with
  | some r => some r
  | none =>
  match litCI "decreto".data cs k with
  | some r => some r
  | none => litCI "constituicao".data cs k

/-- ID_CITATION (parser.ts line 70):
`/^(lei|lc|mp|decreto|constituicao)-(\d+)-(\d{4})\s*,?\s*art\.?\s*(\d+[ºªo°]?)/i`. -/
def matchID (cs : List Char) : Option IdCaps :=
  idTypeAlt cs fun g1 cs =>
  charE (fun c => c = '-') cs fun _ cs =>
  repCls isDigitC 1 none cs fun g2 cs =>
  charE (fun c => c = '-') cs fun _ cs =>
  repCls isDigitC 4 (some 4) cs fun g3 cs =>
  repCls isWsChar 0 none cs fun _ cs =>
  optCls (fun c => c = ',') cs fun _ cs =>
  repCls isWsChar 0 none cs fun _ cs =>
  litCI "art".data cs fun _ cs =>
  optCls (fun c => c = '.') cs fun _ cs =>
  repCls isWsChar 0 none cs fun _ cs =>
  repCls isDigitC 1 none cs fun a cs =>
  optCls isOrdMark cs fun m _ =>
  some ⟨g1, g2, g3, a ++ m⟩

/-- ALIAS_CITATION (parser.ts line 67):
`/^art\.?\s*(\d+[ºªo°]?)\s*,?\s*(.+)$/i`; `$` without `/m` only matches at
the very end of the input. -/
def matchALIAS (cs : List Char) : Option AliasCaps :=
  reArtNum cs fun g1 cs =>
  repCls isWsChar 0 none cs fun _ cs =>
  optCls (fun c => c = ',') cs fun _ cs =>
  repCls isWsChar 0 none cs fun _ cs =>
  repCls isDotAny 1 none cs fun g2 rest =>
  if rest = [] then some ⟨g1, g2⟩ else none

/-! ## Pinpoint regexes (parser.ts lines 73-79), unanchored scans -/

/-- One position of PARAGRAPH_RE
`/[§§]\s*(\d+[ºªo°]?)|par[aá]grafo\s+(?:[uú]nico|(\d+[ºªo°]?))/i`.
The result is group 1 (`some g` iff the `§` branch matched; the `parágrafo`
branch leaves group 1 unset, which is what parser.ts line 87 tests). -/
def matchParaAt (cs : List Char) : Option (Option (List Char)) :=
  match (charE (fun c => c = '§') cs fun _ cs =>
         repCls isWsChar 0 none cs fun _ cs =>
         repCls isDigitC 1 none cs fun ds cs =>
         optCls isOrdMark cs fun m _ =>
         some (some (ds ++ m)) : Option (Option (List Char))) with
  | some r => some r
  | none =>
    litCI "par".data cs fun _ cs =>
    charE (fun c => toLowerC c = 'a' ∨ toLowerC c = 'á') cs fun _ cs =>
    litCI "grafo".data cs fun _ cs =>
    repCls isWsChar 1 none cs fun _ cs =>
    match (charE (fun c => toLowerC c = 'u' ∨ toLowerC c = 'ú') cs fun _ cs =>
           litCI "nico".data cs fun _ _ =>
           some (none : Option (List Char)) : Option (Option (List Char))) with
    | some r => some r
    | none =>
      repCls isDigitC 1 none cs fun _ cs =>
      optCls isOrdMark cs fun _ _ =>
      some none

/-- One position of INCISO_RE
`/inciso\s+([IVXLCDM]+)|,\s*([IVXLCDM]+)\s*(?:,|$)/i`; the result is the
captured Roman numeral (group 1 or group 2, parser.ts line 91). -/
def matchIncisoAt (cs : List Char) : Option (List Char) :=
  match (litCI "inciso".data cs fun _ cs =>
         repCls isWsChar 1 none cs fun _ cs =>
         repCls isRomanC 1 none cs fun g _ =>
         some g : Option (List Char)) with
  | some r => some r
  | none =>
    charE (fun c => c = ',') cs fun _ cs =>
    repCls isWsChar 0 none cs fun _ cs =>
    repCls isRomanC 1 none cs fun g cs =>
    repCls isWsChar 0 none cs fun _ cs =>
    match (charE (fun c => c = ',') cs fun _ _ =>
           some g : Option (List Char)) with
    | some r => some r
    | none => if cs = [] then some g else none

/-- One position of ALINEA_RE `/al[ií]nea\s+([a-z])/i`. -/
def matchAlineaAt (cs : List Char) : Option (List Char) :=
  litCI "al".data cs fun _ cs =>
  charE (fun c => toLowerC c = 'i' ∨ toLowerC c = 'í') cs fun _ cs =>
  litCI "nea".data cs fun _ cs =>
  repCls isWsChar 1 none cs fun _ cs =>
  charE (fun c => 97 ≤ (toLowerC c).toNat ∧ (toLowerC c).toNat ≤ 122) cs fun g _ =>
  some g

/-! ## The parsed-citation data model (src/types, parser.ts) -/

/-- The runtime values of the TS `type` field.  `undef` models the JS
`undefined` that flows into the field when the alias branch copies
`alias.type` from a value inherited from `Object.prototype` (the TS type
annotation promises a string union, but the runtime value is
`undefined`). -/
inductive LawType where
  | lei | lc | mp | decreto | constituicao | unknown | undef
  deriving DecidableEq, Repr

structure AliasEntry where
  type : LawType
  number : Nat
  year : Nat
  deriving DecidableEq, Repr

structure ParsedCitation where
  valid : Bool
  type : LawType
  title : Option (List Char) := none
  law_type : Option LawType := none
  number : Option Nat := none
  year : Option Nat := none
  article : Option (List Char) := none
  paragraph : Option (List Char) := none
  inciso : Option (List Char) := none
  alinea : Option (List Char) := none
  error : Option (List Char) := none
  deriving DecidableEq, Repr

/-- First-match lookup in an association list: the own-property part of
indexing a JS object literal used as a string-keyed record (`jsIndex` below
adds the prototype chain where arbitrary keys can reach it). -/
def lookupTable {β : Type} (t : List (List Char × β)) (key : List Char) : Option β :=
  (t.find? (fun p => p.1 == key)).map (·.2)

/-- The own property names of `Object.prototype` that consist solely of
lowercase characters and underscores.  A JS object literal inherits from
`Object.prototype`, so indexing it with one of these names returns a truthy
inherited value (`Object.prototype.constructor` is the `Object` function,
`__proto__` is `Object.prototype` itself); the other inherited names
(`hasOwnProperty`, `toString`, …) contain uppercase letters and are
unreachable through a lowercased key. -/
def PROTO_KEYS : List (List Char) :=
  ["constructor".data, "__proto__".data]

/-- Result of JS object indexing `table[key]` on an object literal: an own
property from the table, a truthy value inherited from the prototype chain,
or `undefined`. -/
inductive JsProp (β : Type) where
  | own : β → JsProp β
  | inherited : JsProp β
  | undefined : JsProp β
  deriving DecidableEq, Repr

/-- JS truthiness of an indexing result (`if (alias)`): own entries and
inherited prototype members are truthy objects, `undefined` is falsy. -/
def JsProp.truthy {β : Type} : JsProp β → Bool
  | .undefined => false
  | _ => true

/-- JS object indexing `table[key]` with the prototype chain of an object
literal. -/
def jsIndex {β : Type} (t : List (List Char × β)) (key : List Char) : JsProp β :=
  match lookupTable t key with
  | some v => JsProp.own v
  | none => if key ∈ PROTO_KEYS then JsProp.inherited else JsProp.undefined

/-- ALIAS_MAP (parser.ts lines 23-34). -/
def ALIAS_MAP : List (List Char × AliasEntry) :=
  [("lgpd".data, ⟨.lei, 13709, 2018⟩),
   ("marco civil".data, ⟨.lei, 12965, 2014⟩),
   ("marco civil da internet".data, ⟨.lei, 12965, 2014⟩),
   ("cdc".data, ⟨.lei, 8078, 1990⟩),
   ("codigo de defesa do consumidor".data, ⟨.lei, 8078, 1990⟩),
   ("codigo civil".data, ⟨.lei, 10406, 2002⟩),
   ("carolina dieckmann".data, ⟨.lei, 12737, 2012⟩),
   ("constituicao".data, ⟨.constituicao, 0, 1988⟩),
   ("cf".data, ⟨.constituicao, 0, 1988⟩),
   ("cf/88".data, ⟨.constituicao, 0, 1988⟩)]

/-- TYPE_MAP (parser.ts lines 37-43); the TS value is the type-code string,
modelled by the corresponding `LawType` constructor. -/
def TYPE_MAP : List (List Char × LawType) :=
  [("lei".data, .lei),
   ("lei complementar".data, .lc),
   ("medida provisoria".data, .mp),
   ("decreto".data, .decreto),
   ("constituicao".data, .constituicao)]

/-- The five type-code strings of the ID_CITATION alternation; the TS code
casts `match[1].toLowerCase()` directly, which the regex guarantees is one
of these keys. -/
def ID_TYPE_CODES : List (List Char × LawType) :=
  [("lei".data, .lei),
   ("lc".data, .lc),
   ("mp".data, .mp),
   ("decreto".data, .decreto),
   ("constituicao".data, .constituicao)]

/-- parser.ts line 82: `removeAccents(citation.trim())`. -/
def normTrimmed (citation : List Char) : List Char :=
  removeAccents (trimList citation)

/-- Pinpoint extraction (parser.ts lines 85-94) bundled. -/
structure Pinpoints where
  paragraph : Option (List Char)
  inciso : Option (List Char)
  alinea : Option (List Char)
  deriving DecidableEq, Repr

def extractPinpoints (trimmed : List Char) : Pinpoints :=
  { paragraph :=
      match scanFirst matchParaAt trimmed with
      | some (some g) => some (stripOrdinal g)
      | some none => some "unico".data
      | none => none,
    inciso := scanFirst matchIncisoAt trimmed,
    alinea := scanFirst matchAlineaAt trimmed }

/-- Success record of the ID-based branch (parser.ts lines 98-111). -/
def mkIdParsed (caps : IdCaps) (pp : Pinpoints) : ParsedCitation :=
  let lawType := (lookupTable ID_TYPE_CODES (toLowerL caps.g1)).getD .unknown
  { valid := true,
    type := lawType,
    law_type := some lawType,
    number := some (jsParseInt caps.g2),
    year := some (jsParseInt caps.g3),
    article := some (stripOrdinal caps.g4),
    paragraph := pp.paragraph,
    inciso := pp.inciso,
    alinea := pp.alinea }

/-- Success record of the full-citation branch (parser.ts lines 115-132). -/
def mkFullParsed (caps : FullCaps) (pp : Pinpoints) : ParsedCitation :=
  let rawType := removeAccents (toLowerL caps.g2)
  let lawType := (lookupTable TYPE_MAP rawType).getD .lei
  { valid := true,
    type := lawType,
    law_type := some lawType,
    title := some (caps.g2 ++ " ".data ++ caps.g3 ++ "/".data ++ caps.g6),
    number := some (jsParseInt (removeDots caps.g3)),
    year := some (jsParseInt caps.g6),
    article := some (stripOrdinal caps.g1),
    paragraph := pp.paragraph,
    inciso := pp.inciso,
    alinea := pp.alinea }

/-- Success record of the short-citation branch (parser.ts lines 135-153). -/
def mkShortParsed (caps : ShortCaps) (pp : Pinpoints) : ParsedCitation :=
  let rawType := removeAccents (toLowerL caps.g2)
  let lawType := (lookupTable TYPE_MAP rawType).getD .lei
  { valid := true,
    type := lawType,
    law_type := some lawType,
    title := some (caps.g2 ++ " ".data ++ caps.g3 ++ "/".data ++ caps.g4),
    number := some (jsParseInt (removeDots caps.g3)),
    year := some (jsParseInt caps.g4),
    article := some (stripOrdinal caps.g1),
    paragraph := pp.paragraph,
    inciso := pp.inciso,
    alinea := pp.alinea }

/-- Success record of the alias branch (parser.ts lines 160-172). -/
def mkAliasParsed (al : AliasEntry) (caps : AliasCaps) (pp : Pinpoints) : ParsedCitation :=
  { valid := true,
    type := al.type,
    law_type := some al.type,
    number := some al.number,
    year := some al.year,
    article := some (stripOrdinal caps.g1),
    paragraph := pp.paragraph,
    inciso := pp.inciso,
    alinea := pp.alinea }

/-- Alias-branch record when `ALIAS_MAP[aliasKey]` hits a truthy value
inherited from `Object.prototype` (parser.ts lines 159-172): the guard
`if (alias)` passes, but `alias.type`, `alias.number` and `alias.year` are
all `undefined` at runtime. -/
def mkProtoAliasParsed (caps : AliasCaps) (pp : Pinpoints) : ParsedCitation :=
  { valid := true,
    type := .undef,
    law_type := none,
    number := none,
    year := none,
    article := some (stripOrdinal caps.g1),
    paragraph := pp.paragraph,
    inciso := pp.inciso,
    alinea := pp.alinea }

/-- Failure record (parser.ts lines 175-179); the message quotes
`citation.trim()`. -/
def mkFailParsed (citation : List Char) : ParsedCitation :=
  { valid := false,
    type := .unknown,
    error := some (("Could not parse Brazilian citation: \"".data
      ++ trimList citation) ++ "\"".data) }

/-- `parseCitation` (parser.ts lines 81-180). -/
def parseCitation (citation : List Char) : ParsedCitation :=
  let trimmed := normTrimmed citation
  let pp := extractPinpoints trimmed
  match matchID trimmed with
  | some caps => mkIdParsed caps pp
  | none =>
  match matchFULL trimmed with
  | some caps => mkFullParsed caps pp
  | none =>
  match matchSHORT trimmed with
  | some caps => mkShortParsed caps pp
  | none =>
  match matchALIAS trimmed with
  | some caps =>
    match jsIndex ALIAS_MAP (toLowerL (trimList caps.g2)) with
    | .own al => mkAliasParsed al caps pp
    | .inherited => mkProtoAliasParsed caps pp
    | .undefined => mkFailParsed citation
  | none => mkFailParsed citation

/-- Whether some grammar of the cascade resolves the (normalized) text:
one of the four regexes matches, with the alias grammar additionally
requiring its key to index a truthy value (an ALIAS_MAP entry or an
inherited `Object.prototype` member).  Mentions only the grammar matchers —
not the pinpoint extraction — so equality of `(parseCitation s).valid` with
this predicate states that pinpoints never gate validity. -/
def grammarsResolve (t : List Char) : Bool :=
  (matchID t).isSome || (matchFULL t).isSome || (matchSHORT t).isSome ||
  (match matchALIAS t with
   | some caps => (jsIndex ALIAS_MAP (toLowerL (trimList caps.g2))).truthy
   | none => false)

/-! ## Normalizer contract (spec §4.1)

The spec's `normalize` is NFD decomposition, stripping of combining
diacritical marks (the source's `removeAccents`, parser.ts 56-58), followed
by whitespace trimming (`String.prototype.trim`). -/

def normalize (s : List Char) : List Char := trimList (removeAccents s)

/-! ## Substring search (SQL `LIKE '%x%'` and plain containment) -/

def startsWithL (pat : List Char) (cs : List Char) : Bool :=
  match pat, cs with
  | [], _ => true
  | _ :: _, [] => false
  | p :: ps, c :: rest => p = c ∧ startsWithL ps rest

def containsSeq (pat : List Char) : List Char → Bool
  | [] => startsWithL pat []
  | c :: rest => startsWithL pat (c :: rest) ∨ containsSeq pat rest

/-- SQLite `LIKE '%t%'` with default (case-insensitive) collation, modelled
with the same lowercasing as the rest of the engine; the titles and patterns
exercised here are ASCII. -/
def likeContains (pat : List Char) (cs : List Char) : Bool :=
  containsSeq (toLowerL pat) (toLowerL cs)

/-! ## Citation formatter (formatter.ts) -/

inductive CitationFormat where
  | full | short | pinpoint
  deriving DecidableEq, Repr

/-- TYPE_LABEL (formatter.ts lines 13-19); keys are the type-code strings,
so `unknown` (or any other string) yields `undefined`. -/
def TYPE_LABEL : LawType → Option (List Char)
  | .lei => some "Lei".data
  | .lc => some "Lei Complementar".data
  | .mp => some "Medida Provisoria".data
  | .decreto => some "Decreto".data
  | .constituicao => some "Constituicao Federal".data
  | .unknown => none
  | .undef => none

/-- JS string truthiness test for an optional string field: `!x` is true
when the field is absent or the empty string. -/
def jsFalsyStr (o : Option (List Char)) : Bool :=
  match o with
  | none => true
  | some s => s.isEmpty

/-- JS number truthiness: `!n` is true when the field is absent or zero. -/
def jsFalsyNum (o : Option Nat) : Bool :=
  match o with
  | none => true
  | some n => n = 0

/-- Most-significant-first decimal digits of `n`, with explicit fuel so the
recursion is structural (`n` itself is always enough fuel). -/
def natCharsAux : Nat → Nat → List Char
  | 0, _ => []
  | fuel + 1, n =>
    if n = 0 then []
    else natCharsAux fuel (n / 10) ++ [Char.ofNat (48 + n % 10)]

/-- Decimal digit characters of `n`, as produced by JS number-to-string
interpolation. -/
def natChars (n : Nat) : List Char :=
  if n = 0 then ['0'] else natCharsAux n n

/-- Brazilian thousands grouping on a reversed digit list: insert a dot
after every three characters. -/
def groupRev : List Char → List Char
  | a :: b :: c :: d :: rest => a :: b :: c :: '.' :: groupRev (d :: rest)
  | l => l

/-- `n.toLocaleString('pt-BR')` (formatter.ts lines 31-33): decimal digits
grouped in threes from the right with `.` separators. -/
def formatLawNumber (n : Nat) : List Char :=
  (groupRev (natChars n).reverse).reverse

/-- `buildPinpoint` (formatter.ts lines 71-89). -/
def buildPinpoint (parsed : ParsedCitation) : List Char :=
  let r0 := (parsed.article.getD []) ++ "º".data
  let r1 :=
    if jsFalsyStr parsed.paragraph then r0
    else if parsed.paragraph.getD [] = "unico".data then
      r0 ++ ", paragrafo unico".data
    else r0 ++ ", § ".data ++ parsed.paragraph.getD [] ++ "º".data
  let r2 :=
    if jsFalsyStr parsed.inciso then r1
    else r1 ++ ", ".data ++ parsed.inciso.getD []
  if jsFalsyStr parsed.alinea then r2
  else r2 ++ ", alinea ".data ++ parsed.alinea.getD []

/-- `formatCitation` (formatter.ts lines 35-69). -/
def formatCitation (parsed : ParsedCitation) (format : CitationFormat) : List Char :=
  if ¬ parsed.valid ∨ jsFalsyStr parsed.article then []
  else
    let pinpoint := buildPinpoint parsed
    let typeLabel := ((match parsed.law_type with
      | some lt => TYPE_LABEL lt
      | none => TYPE_LABEL parsed.type)).getD "Lei".data
    let numStr := if jsFalsyNum parsed.number then []
      else formatLawNumber (parsed.number.getD 0)
    let yearStr := match parsed.year with
      | some y => natChars y
      | none => []
    match format with
    | .full =>
      if parsed.type = .constituicao then
        "Art. ".data ++ pinpoint ++ ", Constituicao Federal de ".data
          ++ natChars (parsed.year.getD 1988)
      else
        trimList ("Art. ".data ++ pinpoint ++ ", ".data ++ typeLabel
          ++ " nº ".data ++ numStr ++ "/".data ++ yearStr)
    | .short =>
      if parsed.type = .constituicao then
        "Art. ".data ++ pinpoint ++ ", CF/88".data
      else
        trimList ("Art. ".data ++ pinpoint ++ ", ".data ++ typeLabel
          ++ " ".data ++ numStr ++ "/".data ++ yearStr)
    | .pinpoint => "Art. ".data ++ pinpoint

/-! ## Document store model (the external SQLite database, §6 of the spec)

Rows of `legal_documents` and `legal_provisions`; `find?` models
`SELECT ... LIMIT 1` and list order models the `id` ordering. -/

structure DocRow where
  id : List Char
  title : List Char
  status : List Char
  url : Option (List Char) := none
  deriving DecidableEq, Repr

structure ProvRow where
  document_id : List Char
  provision_ref : List Char
  chapter : Option (List Char) := none
  sectionCol : List Char
  title : Option (List Char) := none
  content : List Char := []
  deriving DecidableEq, Repr

structure Db where
  docs : List DocRow
  provs : List ProvRow
  deriving DecidableEq, Repr

/-- The exact-match existence check `SELECT id FROM legal_documents WHERE
id = ? LIMIT 1`. -/
def dbExistsId (db : Db) (id : List Char) : Bool :=
  (db.docs.find? (fun d => d.id == id)).isSome

/-! ## Citation validator (validator.ts) -/

def lawTypeCode : LawType → List Char
  | .lei => "lei".data
  | .lc => "lc".data
  | .mp => "mp".data
  | .decreto => "decreto".data
  | .constituicao => "constituicao".data
  | .unknown => "unknown".data
  | .undef => "undefined".data

/-- `buildDocumentId` (validator.ts lines 15-20). -/
def buildDocumentId (type : LawType) (number year : Option Nat) : List Char :=
  if type = .constituicao then
    "constituicao-".data ++ natChars (year.getD 1988)
  else
    lawTypeCode type ++ "-".data ++ natChars (number.getD 0)
      ++ "-".data ++ natChars (year.getD 0)

structure ValidationResult where
  citation : ParsedCitation
  document_exists : Bool
  provision_exists : Bool
  document_title : Option (List Char) := none
  status : Option (List Char) := none
  warnings : List (List Char)
  deriving DecidableEq, Repr

/-- Document lookup of the validator (validator.ts lines 39-47): by exact
id first, then — only when a non-empty `title` was captured — by substring
title match. -/
def validatorLookupDoc (db : Db) (parsed : ParsedCitation)
    (expectedId : List Char) : Option DocRow :=
  match db.docs.find? (fun d => d.id == expectedId) with
  | some d => some d
  | none =>
    if jsFalsyStr parsed.title then none
    else db.docs.find? (fun d => likeContains (parsed.title.getD []) d.title)

/-- `validateCitation` (validator.ts lines 22-95). -/
def validateCitation (db : Db) (citation : List Char) : ValidationResult :=
  let parsed := parseCitation citation
  if ¬ parsed.valid then
    { citation := parsed,
      document_exists := false,
      provision_exists := false,
      warnings := [parsed.error.getD "Invalid citation format".data] }
  else
    let expectedId := buildDocumentId parsed.type parsed.number parsed.year
    match validatorLookupDoc db parsed expectedId with
    | none =>
      { citation := parsed,
        document_exists := false,
        provision_exists := false,
        warnings := [("Document \"".data ++ expectedId) ++ "\" not found in database".data] }
    | some doc =>
      let warnings0 :=
        if doc.status = "repealed".data then ["This law has been repealed".data] else []
      let art := parsed.article.getD []
      let artRef := "art".data ++ art
      let artDot := "art. ".data ++ art
      let provisionExists :=
        if jsFalsyStr parsed.article then false
        else db.provs.any (fun p => p.document_id == doc.id &&
          (p.provision_ref == artRef || p.provision_ref == artDot ||
           p.sectionCol == art || p.sectionCol == artRef))
      let warnings :=
        if jsFalsyStr parsed.article then warnings0
        else if provisionExists then warnings0
        else warnings0 ++ [("Art. ".data ++ art ++ " not found in ".data) ++ doc.title]
      { citation := parsed,
        document_exists := true,
        provision_exists := provisionExists,
        document_title := some doc.title,
        status := some doc.status,
        warnings := warnings }

/-! ## Statute-id resolver (src/utils/statute-id.ts, src/unnamed/part_004) -/

/-- SHORT_NAME_MAP (statute-id.ts lines 60-75). -/
def SHORT_NAME_MAP : List (List Char × List Char) :=
  [("lgpd".data, "lei-13709-2018".data),
   ("marco civil".data, "lei-12965-2014".data),
   ("marco civil da internet".data, "lei-12965-2014".data),
   ("carolina dieckmann".data, "lei-12737-2012".data),
   ("lei carolina dieckmann".data, "lei-12737-2012".data),
   ("cdc".data, "lei-8078-1990".data),
   ("codigo de defesa do consumidor".data, "lei-8078-1990".data),
   ("codigo civil".data, "lei-10406-2002".data),
   ("lei geral de telecomunicacoes".data, "lei-9472-1997".data),
   ("lgt".data, "lei-9472-1997".data),
   ("constituicao".data, "constituicao-1988".data),
   ("constituicao federal".data, "constituicao-1988".data),
   ("cf".data, "constituicao-1988".data),
   ("cf/88".data, "constituicao-1988".data)]

structure RefCaps where
  g1 : List Char
  g2 : List Char
  g3 : List Char
  deriving DecidableEq, Repr

/-- Alternation `(lei|lc|mp|decreto)` of `normalizeReference`. -/
def refTypeAlt {α : Type u} (cs : List Char)
    (k : List Char → List Char → Option α) : Option α :=
  match litCI "lei".data cs k with
  | some r => some r
  | none =>
  match litCI "lc".data cs k with
  | some r => some r
  | none =>
  match litCI "mp".data cs k with
  | some r => some r
  | none => litCI "decreto".data cs k

/-- Non-capture group `(?:\/|,\s*de\s+\d{1,2}\s+de\s+\w+\s+de\s+)` of the
first `normalizeReference` regex. -/
def dateOrSlash {α : Type u} (cs : List Char)
    (k : List Char → List Char → Option α) : Option α :=
  match charE (fun c => c = '/') cs k with
  | some r => some r
  | none =>
    charE (fun c => c = ',') cs fun _ cs =>
    repCls isWsChar 0 none cs fun _ cs =>
    litCI "de".data cs fun _ cs =>
    repCls isWsChar 1 none cs fun _ cs =>
    repCls isDigitC 1 (some 2) cs fun _ cs =>
    repCls isWsChar 1 none cs fun _ cs =>
    litCI "de".data cs fun _ cs =>
    repCls isWsChar 1 none cs fun _ cs =>
    repCls isWordC 1 none cs fun _ cs =>
    repCls isWsChar 1 none cs fun _ cs =>
    litCI "de".data cs fun _ cs =>
    repCls isWsChar 1 none cs fun w rest =>
    k w rest

/-- First regex of `normalizeReference` (statute-id.ts lines 83-85):
`/^(lei|lc|mp|decreto)\s+(?:n[ºo.]?\s*)?(\d[\d.]*)\s*(?:\/|,\s*de\s+\d{1,2}\s+de\s+\w+\s+de\s+)(\d{4})/i`. -/
def matchNormFull (cs : List Char) : Option RefCaps :=
  refTypeAlt cs fun g1 cs =>
  repCls isWsChar 1 none cs fun _ cs =>
  optM nGroup cs fun _ cs =>
  charE isDigitC cs fun d0 cs =>
  repCls isNumDot 0 none cs fun ds cs =>
  repCls isWsChar 0 none cs fun _ cs =>
  dateOrSlash cs fun _ cs =>
  repCls isDigitC 4 (some 4) cs fun g3 _ =>
  some ⟨g1, d0 ++ ds, g3⟩

/-- Second regex of `normalizeReference` (statute-id.ts lines 94-95):
`/^(lei|lc|mp|decreto)\s+(?:n[ºo.]?\s*)?(\d[\d.]*)\s*\/\s*(\d{4})/i`. -/
def matchNormShort (cs : List Char) : Option RefCaps :=
  refTypeAlt cs fun g1 cs =>
  repCls isWsChar 1 none cs fun _ cs =>
  optM nGroup cs fun _ cs =>
  charE isDigitC cs fun d0 cs =>
  repCls isNumDot 0 none cs fun ds cs =>
  repCls isWsChar 0 none cs fun _ cs =>
  charE (fun c => c = '/') cs fun _ cs =>
  repCls isWsChar 0 none cs fun _ cs =>
  repCls isDigitC 4 (some 4) cs fun g3 _ =>
  some ⟨g1, d0 ++ ds, g3⟩

/-- `normalizeReference` (statute-id.ts lines 81-105). -/
def normalizeReference (input : List Char) : Option (List Char) :=
  match matchNormFull input with
  | some caps =>
    some ((toLowerL caps.g1 ++ "-".data ++ removeDots caps.g2) ++ "-".data ++ caps.g3)
  | none =>
  match matchNormShort input with
  | some caps =>
    some ((toLowerL caps.g1 ++ "-".data ++ removeDots caps.g2) ++ "-".data ++ caps.g3)
  | none => none

/-- Helper for `spacesToHyphens`: the flag records whether the previous
character was whitespace (i.e. we are inside a run already replaced). -/
def spacesToHyphensAux : Bool → List Char → List Char
  | _, [] => []
  | inRun, c :: rest =>
    if isWsChar c then
      if inRun then spacesToHyphensAux true rest
      else '-' :: spacesToHyphensAux true rest
    else c :: spacesToHyphensAux false rest

/-- `trimmed.replace(/\s+/g, '-')`: each maximal whitespace run becomes a
single hyphen. -/
def spacesToHyphens (cs : List Char) : List Char :=
  spacesToHyphensAux false cs

/-- Hyphen-to-space transform of statute-id.ts line 134: every hyphen
becomes a space (a global single-character regex replace). -/
def hyphensToSpaces (cs : List Char) : List Char :=
  cs.map (fun c => if c = '-' then ' ' else c)

/-- Insertion into a JS `Set` (insertion order preserved, duplicates
ignored). -/
def addCand (l : List (List Char)) (c : List Char) : List (List Char) :=
  if l.contains c then l else l ++ [c]

/-- `statuteIdCandidates` (statute-id.ts lines 111-138). -/
def statuteIdCandidates (id : List Char) : List (List Char) :=
  let trimmed := toLowerL (trimList id)
  let c1 := addCand [] trimmed
  let c2 := addCand c1 (trimList id)
  let c3 := match lookupTable SHORT_NAME_MAP trimmed with
    | some mapped => addCand c2 mapped
    | none => c2
  let c4 := match normalizeReference (trimList id) with
    | some normal => addCand c3 normal
    | none => c3
  let c5 := if trimmed.contains ' ' then addCand c4 (spacesToHyphens trimmed) else c4
  if trimmed.contains '-' then addCand c5 (hyphensToSpaces trimmed) else c5

/-- `resolveExistingStatuteId` (statute-id.ts lines 140-176). -/
def resolveExistingStatuteId (db : Db) (inputId : List Char) : Option (List Char) :=
  match db.docs.find? (fun d => d.id == inputId) with
  | some d => some d.id
  | none =>
  let lower := toLowerL (trimList inputId)
  match (match lookupTable SHORT_NAME_MAP lower with
         | some mapped => (db.docs.find? (fun d => d.id == mapped)).map (fun d => d.id)
         | none => none : Option (List Char)) with
  | some r => some r
  | none =>
  match (match normalizeReference (trimList inputId) with
         | some normal => (db.docs.find? (fun d => d.id == normal)).map (fun d => d.id)
         | none => none : Option (List Char)) with
  | some r => some r
  | none => (db.docs.find? (fun d => likeContains inputId d.title)).map (fun d => d.id)

/-! ## get_provision tool (src/tools/get-provision.ts, src/unnamed/part_003) -/

structure GetProvisionInput where
  document_id : Option (List Char) := none
  law_identifier : Option (List Char) := none
  article : Option (List Char) := none
  provision_ref : Option (List Char) := none
  deriving DecidableEq, Repr

structure ProvisionResult where
  document_id : List Char
  document_title : List Char
  document_status : List Char
  provision_ref : List Char
  chapter : Option (List Char)
  sectionCol : List Char
  article_number : List Char
  title : Option (List Char)
  content : List Char
  text : List Char
  citation_url : List Char
  deriving DecidableEq, Repr

/-- The shapes of the `results` field of a `getProvision` response:
a single provision, a plain list, the truncation wrapper
`{provisions, truncated, total}`, or `null`. -/
inductive GPResults where
  | one (r : ProvisionResult)
  | many (rs : List ProvisionResult)
  | capped (provisions : List ProvisionResult) (truncated : Bool) (total : Nat)
  | noneFound
  deriving DecidableEq, Repr

def MAX_ALL_PROVISIONS : Nat := 200

/-- `articleRef.replace(/^art\.?\s*/i, '')`. -/
def stripArtLead (cs : List Char) : List Char :=
  match (litCI "art".data cs fun _ cs =>
         optCls (fun c => c = '.') cs fun _ cs =>
         repCls isWsChar 0 none cs fun _ rest =>
         some rest : Option (List Char)) with
  | some rest => rest
  | none => cs

/-- `toResult` (get-provision.ts lines 149-164); the row carries its
document's joined columns. -/
def toResult (doc : DocRow) (baseUrl : List Char) (p : ProvRow) : ProvisionResult :=
  let articleNum := dropTrailingOrd (stripArtLead p.provision_ref)
  { document_id := p.document_id,
    document_title := doc.title,
    document_status := doc.status,
    provision_ref := p.provision_ref,
    chapter := p.chapter,
    sectionCol := p.sectionCol,
    article_number := articleNum,
    title := p.title,
    content := p.content,
    text := p.content,
    citation_url := doc.url.getD baseUrl }

/-- `getProvision` (get-provision.ts lines 44-147); the `_metadata` envelope
is orthogonal to the claims and omitted.  `Except.error` models `throw`. -/
def getProvision (db : Db) (input : GetProvisionInput) : Except (List Char) GPResults :=
  let docInput := match input.document_id with
    | some d => some d
    | none => input.law_identifier
  if jsFalsyStr docInput then
    .error "document_id or law_identifier is required".data
  else
    let docInput := docInput.getD []
    let resolvedDocumentId := (resolveExistingStatuteId db docInput).getD docInput
    let docRow := db.docs.find? (fun d => d.id == resolvedDocumentId)
    let baseUrl := (docRow.bind (·.url)).getD "https://www.planalto.gov.br/ccivil_03/".data
    let articleRef := match input.provision_ref with
      | some p => some p
      | none => input.article
    if jsFalsyStr articleRef then
      let docProvs := db.provs.filter (fun p => p.document_id == resolvedDocumentId)
      let total := docProvs.length
      let rows := match docRow with
        | none => []
        | some doc => (docProvs.take MAX_ALL_PROVISIONS).map (toResult doc baseUrl)
      if total > MAX_ALL_PROVISIONS then
        .ok (.capped rows true total)
      else
        .ok (.many rows)
    else
      let articleRef := articleRef.getD []
      let normalizedArticle := trimList (dropTrailingOrd (stripArtLead articleRef))
      let artRef := "art".data ++ normalizedArticle
      let artDot := "art. ".data ++ normalizedArticle
      let rows := match docRow with
        | none => []
        | some doc => (db.provs.filter (fun p => p.document_id == resolvedDocumentId &&
            (p.provision_ref == artRef || p.provision_ref == artDot ||
             p.sectionCol == normalizedArticle || p.sectionCol == artRef))).map (toResult doc baseUrl)
      match rows with
      | [] => .ok .noneFound
      | [r] => .ok (.one r)
      | rs => .ok (.many rs)

/-! # Lemmas -/

/-! ## Character-class facts -/

theorem digit_not_ord {c : Char} (h : isDigitC c = true) : isOrdMark c = false := by
  by_contra hc
  simp only [Bool.not_eq_false] at hc
  simp only [isOrdMark, decide_eq_true_eq] at hc
  rcases hc with rfl | rfl | rfl | rfl | rfl <;> exact absurd h (by decide)

theorem digit_not_ws {c : Char} (h : isDigitC c = true) : isWsChar c = false := by
  simp only [isDigitC, decide_eq_true_eq] at h
  simp only [isWsChar, decide_eq_false_iff_not]
  omega

/-! ## dropWhile / trim facts -/

theorem dropWhile_eq_self_of_head {p : Char → Bool} {l : List Char}
    (h : ∀ a, l.head? = some a → p a = false) : l.dropWhile p = l := by
  cases l with
  | nil => rfl
  | cons x xs => simp [List.dropWhile_cons, h x rfl]

theorem head?_mem_of_eq {l : List Char} {a : Char} (h : l.head? = some a) : a ∈ l := by
  cases l with
  | nil => simp at h
  | cons x xs =>
    simp only [List.head?_cons, Option.some.injEq] at h
    simp [h.symm]

theorem dropWhile_dropWhile {p : Char → Bool} (l : List Char) :
    (l.dropWhile p).dropWhile p = l.dropWhile p := by
  induction l with
  | nil => rfl
  | cons x xs ih =>
    by_cases hp : p x
    · simp [List.dropWhile_cons, hp, ih]
    · simp [List.dropWhile_cons, hp]

theorem trimList_eq_self {l : List Char}
    (hh : ∀ a, l.head? = some a → isWsChar a = false)
    (hl : ∀ a, l.getLast? = some a → isWsChar a = false) : trimList l = l := by
  unfold trimList
  rw [dropWhile_eq_self_of_head hh]
  rw [dropWhile_eq_self_of_head (by simpa [List.head?_reverse] using hl)]
  exact l.reverse_reverse

theorem mem_of_mem_trimList {l : List Char} {a : Char} (h : a ∈ trimList l) : a ∈ l := by
  unfold trimList at h
  rw [List.mem_reverse] at h
  have h2 := (List.dropWhile_sublist isWsChar).subset h
  rw [List.mem_reverse] at h2
  exact (List.dropWhile_sublist isWsChar).subset h2

/-- After `dropWhile`, the head (if any) fails the predicate. -/
theorem head_dropWhile_false {p : Char → Bool} :
    ∀ (l : List Char) {a : Char}, (l.dropWhile p).head? = some a → p a = false := by
  intro l
  induction l with
  | nil => intro a h; simp at h
  | cons x xs ih =>
    intro a h
    by_cases hp : p x
    · exact ih (by simpa [List.dropWhile_cons, hp] using h)
    · simp only [List.dropWhile_cons, hp, if_neg, Bool.false_eq_true, not_false_iff,
        ite_false, List.head?_cons, Option.some.injEq] at h
      rw [← h]
      simpa using hp

/-- The last element survives `dropWhile` when the result is non-empty. -/
theorem getLast?_dropWhile {p : Char → Bool} {l : List Char}
    (h : l.dropWhile p ≠ []) : (l.dropWhile p).getLast? = l.getLast? := by
  obtain ⟨t, ht⟩ := (List.dropWhile_suffix p (l := l))
  conv_rhs => rw [← ht]
  exact (List.getLast?_append_of_ne_nil t h).symm

theorem trimList_head {l : List Char} {a : Char}
    (h : (trimList l).head? = some a) : isWsChar a = false := by
  unfold trimList at h
  rw [List.head?_reverse] at h
  cases hd : (l.dropWhile isWsChar).reverse.dropWhile isWsChar with
  | nil => rw [hd] at h; simp at h
  | cons y ys =>
    rw [getLast?_dropWhile (by rw [hd]; simp)] at h
    rw [List.getLast?_eq_head?_reverse, List.reverse_reverse] at h
    exact head_dropWhile_false l h

theorem trimList_getLast {l : List Char} {a : Char}
    (h : (trimList l).getLast? = some a) : isWsChar a = false := by
  unfold trimList at h
  rw [List.getLast?_eq_head?_reverse, List.reverse_reverse] at h
  exact head_dropWhile_false _ h

theorem trimList_trimList (l : List Char) : trimList (trimList l) = trimList l :=
  trimList_eq_self (fun _ h => trimList_head h) (fun _ h => trimList_getLast h)

/-! ## Regex-engine inversion lemmas -/

section Engine

variable {α : Type u} {P : Prop} {r : α}

theorem charE_some {p : Char → Bool} {cs : List Char}
    {k : List Char → List Char → Option α}
    (h : charE p cs k = some r) :
    ∃ x rest, cs = x :: rest ∧ p x = true ∧ k [x] rest = some r := by
  cases cs with
  | nil => simp [charE] at h
  | cons x rest =>
    by_cases hp : p x
    · exact ⟨x, rest, rfl, hp, by simpa [charE, hp] using h⟩
    · simp [charE, hp] at h

theorem litCI_some :
    ∀ {pat cs : List Char} {k : List Char → List Char → Option α},
    litCI pat cs k = some r →
    ∃ con rest, cs = con ++ rest ∧ toLowerL con = toLowerL pat ∧ k con rest = some r := by
  intro pat
  induction pat with
  | nil =>
    intro cs k h
    exact ⟨[], cs, rfl, rfl, by simpa [litCI] using h⟩
  | cons p ps ih =>
    intro cs k h
    cases cs with
    | nil => simp [litCI] at h
    | cons x rest =>
      by_cases hx : toLowerC x = toLowerC p
      · simp only [litCI, if_pos hx] at h
        obtain ⟨con, rest2, heq, hlow, hk⟩ := ih h
        refine ⟨x :: con, rest2, by simp [heq], ?_, hk⟩
        simp only [toLowerL, List.map_cons] at hlow ⊢
        rw [hx, hlow]
      · simp [litCI, hx] at h

theorem optCls_some {p : Char → Bool} {cs : List Char}
    {k : List Char → List Char → Option α}
    (h : optCls p cs k = some r) :
    ∃ con rest, cs = con ++ rest ∧ (con = [] ∨ ∃ c, con = [c] ∧ p c = true) ∧
      k con rest = some r := by
  cases cs with
  | nil => exact ⟨[], [], rfl, Or.inl rfl, by simpa [optCls] using h⟩
  | cons x rest =>
    by_cases hp : p x
    · rcases hk : k [x] rest with _ | r2
      · refine ⟨[], x :: rest, rfl, Or.inl rfl, ?_⟩
        simpa [optCls, hp, hk] using h
      · have : r2 = r := by simpa [optCls, hp, hk] using h
        exact ⟨[x], rest, rfl, Or.inr ⟨x, rfl, hp⟩, by rw [hk, this]⟩
    · exact ⟨[], x :: rest, rfl, Or.inl rfl, by simpa [optCls, hp] using h⟩

theorem tryFrom_some {f : Nat → Option α} {lo : Nat} :
    ∀ {n}, tryFrom f lo n = some r → lo ≤ n → ∃ j, lo ≤ j ∧ j ≤ n ∧ f j = some r := by
  intro n
  induction n with
  | zero => intro h hlo; exact ⟨0, hlo, le_refl 0, h⟩
  | succ n ih =>
    intro h hlo
    rcases hf : f (n + 1) with _ | r2
    · rw [tryFrom, hf] at h
      by_cases he : lo = n + 1
      · simp [he] at h
      · have := ih (by simpa [he] using h) (by omega)
        obtain ⟨j, h1, h2, h3⟩ := this
        exact ⟨j, h1, by omega, h3⟩
    · have : r2 = r := by simpa [tryFrom, hf] using h
      exact ⟨n + 1, hlo, le_refl _, by rw [hf, this]⟩

theorem leadCount_le_length (p : Char → Bool) : ∀ cs : List Char, leadCount p cs ≤ cs.length := by
  intro cs
  induction cs with
  | nil => simp [leadCount]
  | cons x xs ih =>
    by_cases hp : p x
    · simp [leadCount, hp]; omega
    · simp [leadCount, hp]

theorem take_all_of_le_leadCount {p : Char → Bool} :
    ∀ {cs : List Char} {n : Nat}, n ≤ leadCount p cs → (cs.take n).all p = true := by
  intro cs
  induction cs with
  | nil => intro n _; simp
  | cons x xs ih =>
    intro n h
    by_cases hp : p x
    · cases n with
      | zero => simp
      | succ n =>
        rw [leadCount, if_pos hp] at h
        simp only [List.take_succ_cons, List.all_cons, hp, Bool.true_and]
        exact ih (by omega)
    · rw [leadCount, if_neg hp] at h
      have hn : n = 0 := by omega
      subst hn
      simp

theorem repCls_some {p : Char → Bool} {lo : Nat} {hi : Option Nat} {cs : List Char}
    {k : List Char → List Char → Option α}
    (h : repCls p lo hi cs k = some r) :
    ∃ n, lo ≤ n ∧ n ≤ leadCount p cs ∧ (∀ hb, hi = some hb → n ≤ hb) ∧
      k (cs.take n) (cs.drop n) = some r := by
  rcases hi with _ | hb
  · simp only [repCls] at h
    by_cases hm : leadCount p cs < lo
    · rw [if_pos hm] at h; cases h
    · rw [if_neg hm] at h
      obtain ⟨j, h1, h2, h3⟩ := tryFrom_some h (by omega)
      refine ⟨j, h1, h2, ?_, h3⟩
      intro b hb2; cases hb2
  · simp only [repCls] at h
    by_cases hm : min hb (leadCount p cs) < lo
    · rw [if_pos hm] at h; cases h
    · rw [if_neg hm] at h
      obtain ⟨j, h1, h2, h3⟩ := tryFrom_some h (by omega)
      refine ⟨j, h1, by omega, ?_, h3⟩
      intro b hb2
      injection hb2 with hb3
      omega

theorem charE_mono {p : Char → Bool} {cs : List Char}
    {k : List Char → List Char → Option α}
    (h : charE p cs k = some r)
    (hk : ∀ x rest, p x = true → k [x] rest = some r → P) : P := by
  obtain ⟨x, rest, _, hp, hkk⟩ := charE_some h
  exact hk x rest hp hkk

theorem litCI_mono {pat cs : List Char} {k : List Char → List Char → Option α}
    (h : litCI pat cs k = some r)
    (hk : ∀ con rest, toLowerL con = toLowerL pat → k con rest = some r → P) : P := by
  obtain ⟨con, rest, _, hlow, hkk⟩ := litCI_some h
  exact hk con rest hlow hkk

theorem optCls_mono {p : Char → Bool} {cs : List Char}
    {k : List Char → List Char → Option α}
    (h : optCls p cs k = some r)
    (hk : ∀ con rest, (con = [] ∨ ∃ c, con = [c] ∧ p c = true) →
      k con rest = some r → P) : P := by
  obtain ⟨con, rest, _, hshape, hkk⟩ := optCls_some h
  exact hk con rest hshape hkk

theorem repCls_mono {p : Char → Bool} {lo : Nat} {hi : Option Nat} {cs : List Char}
    {k : List Char → List Char → Option α}
    (h : repCls p lo hi cs k = some r)
    (hk : ∀ con rest, con.all p = true → lo ≤ con.length →
      k con rest = some r → P) : P := by
  obtain ⟨n, h1, h2, _, h4⟩ := repCls_some h
  refine hk (cs.take n) (cs.drop n) (take_all_of_le_leadCount h2) ?_ h4
  have h5 := leadCount_le_length p cs
  simp only [List.length_take]
  omega

theorem optM_mono {m : List Char → (List Char → List Char → Option α) → Option α}
    {cs : List Char} {k : List Char → List Char → Option α}
    (h : optM m cs k = some r)
    (h1 : m cs k = some r → P) (h2 : k [] cs = some r → P) : P := by
  unfold optM at h
  cases hm : m cs k with
  | some r2 =>
    rw [hm] at h
    dsimp only at h
    exact h1 (hm.trans h)
  | none =>
    rw [hm] at h
    dsimp only at h
    exact h2 h

theorem medidaLit_mono {cs : List Char} {k : List Char → List Char → Option α}
    (h : medidaLit cs k = some r)
    (hk : ∀ con rest, k con rest = some r → P) : P := by
  unfold medidaLit at h
  refine litCI_mono h fun c1 cs1 _ h => ?_
  refine charE_mono h fun c2 cs2 _ h => ?_
  refine litCI_mono h fun c3 cs3 _ h => ?_
  exact hk _ _ h

theorem typeAlt_mono {cs : List Char} {k : List Char → List Char → Option α}
    (h : typeAlt cs k = some r)
    (hk : ∀ con rest, k con rest = some r → P) : P := by
  unfold typeAlt at h
  cases h1 : litCI "lei".data cs k with
  | some r2 =>
    rw [h1] at h
    dsimp only at h
    exact litCI_mono (h1.trans h) (fun con rest _ hkk => hk con rest hkk)
  | none =>
    rw [h1] at h
    dsimp only at h
    cases h2 : litCI "lei complementar".data cs k with
    | some r2 =>
      rw [h2] at h
      dsimp only at h
      exact litCI_mono (h2.trans h) (fun con rest _ hkk => hk con rest hkk)
    | none =>
      rw [h2] at h
      dsimp only at h
      cases h3 : medidaLit cs k with
      | some r2 =>
        rw [h3] at h
        dsimp only at h
        exact medidaLit_mono (h3.trans h) hk
      | none =>
        rw [h3] at h
        dsimp only at h
        exact litCI_mono h (fun con rest _ hkk => hk con rest hkk)

theorem nGroup_mono {cs : List Char} {k : List Char → List Char → Option α}
    (h : nGroup cs k = some r)
    (hk : ∀ con rest, k con rest = some r → P) : P := by
  unfold nGroup at h
  refine litCI_mono h fun c1 cs1 _ h => ?_
  refine optCls_mono h fun c2 cs2 _ h => ?_
  refine repCls_mono h fun c3 cs3 _ _ h => ?_
  exact hk _ _ h

theorem optM_nGroup_mono {cs : List Char} {k : List Char → List Char → Option α}
    (h : optM nGroup cs k = some r)
    (hk : ∀ con rest, k con rest = some r → P) : P := by
  refine optM_mono h (fun h1 => nGroup_mono h1 hk) (fun h2 => hk _ _ h2)

/-- Inversion of the shared `art\.?\s*(\d+[ºªo°]?)` head: the capture is a
non-empty digit run followed by at most one ordinal-marker character. -/
theorem reArtNum_some {cs : List Char} {k : List Char → List Char → Option α}
    (h : reArtNum cs k = some r) :
    ∃ ds m rest, ds ≠ [] ∧ ds.all isDigitC = true ∧
      (m = [] ∨ ∃ c, m = [c] ∧ isOrdMark c = true) ∧
      k (ds ++ m) rest = some r := by
  unfold reArtNum at h
  refine litCI_mono h fun _ _ _ h => ?_
  refine optCls_mono h fun _ _ _ h => ?_
  refine repCls_mono h fun _ _ _ _ h => ?_
  refine repCls_mono h fun ds cs4 hall hlen h => ?_
  refine optCls_mono h fun m rest hm h => ?_
  refine ⟨ds, m, rest, ?_, hall, hm, h⟩
  intro hnil
  rw [hnil] at hlen
  simp at hlen

end Engine

/-! ## Capture-shape lemmas for the four citation grammars -/

theorem matchFULL_article {cs : List Char} {caps : FullCaps}
    (h : matchFULL cs = some caps) :
    ∃ ds m, caps.g1 = ds ++ m ∧ ds ≠ [] ∧ ds.all isDigitC = true ∧
      (m = [] ∨ ∃ c, m = [c] ∧ isOrdMark c = true) := by
  unfold matchFULL at h
  obtain ⟨ds, m, rest, hne, hall, hm, h⟩ := reArtNum_some h
  refine ⟨ds, m, ?_, hne, hall, hm⟩
  refine repCls_mono h fun _ _ _ _ h => ?_
  refine optCls_mono h fun _ _ _ h => ?_
  refine repCls_mono h fun _ _ _ _ h => ?_
  refine typeAlt_mono h fun _ _ h => ?_
  refine repCls_mono h fun _ _ _ _ h => ?_
  refine optM_nGroup_mono h fun _ _ h => ?_
  refine charE_mono h fun _ _ _ h => ?_
  refine repCls_mono h fun _ _ _ _ h => ?_
  refine repCls_mono h fun _ _ _ _ h => ?_
  refine charE_mono h fun _ _ _ h => ?_
  refine repCls_mono h fun _ _ _ _ h => ?_
  refine litCI_mono h fun _ _ _ h => ?_
  refine repCls_mono h fun _ _ _ _ h => ?_
  refine repCls_mono h fun _ _ _ _ h => ?_
  refine repCls_mono h fun _ _ _ _ h => ?_
  refine litCI_mono h fun _ _ _ h => ?_
  refine repCls_mono h fun _ _ _ _ h => ?_
  refine repCls_mono h fun _ _ _ _ h => ?_
  refine repCls_mono h fun _ _ _ _ h => ?_
  refine litCI_mono h fun _ _ _ h => ?_
  refine repCls_mono h fun _ _ _ _ h => ?_
  refine repCls_mono h fun _ _ _ _ h => ?_
  cases h
  rfl

theorem matchSHORT_article {cs : List Char} {caps : ShortCaps}
    (h : matchSHORT cs = some caps) :
    ∃ ds m, caps.g1 = ds ++ m ∧ ds ≠ [] ∧ ds.all isDigitC = true ∧
      (m = [] ∨ ∃ c, m = [c] ∧ isOrdMark c = true) := by
  unfold matchSHORT at h
  obtain ⟨ds, m, rest, hne, hall, hm, h⟩ := reArtNum_some h
  refine ⟨ds, m, ?_, hne, hall, hm⟩
  refine repCls_mono h fun _ _ _ _ h => ?_
  refine optCls_mono h fun _ _ _ h => ?_
  refine repCls_mono h fun _ _ _ _ h => ?_
  refine typeAlt_mono h fun _ _ h => ?_
  refine repCls_mono h fun _ _ _ _ h => ?_
  refine optM_nGroup_mono h fun _ _ h => ?_
  refine charE_mono h fun _ _ _ h => ?_
  refine repCls_mono h fun _ _ _ _ h => ?_
  refine repCls_mono h fun _ _ _ _ h => ?_
  refine charE_mono h fun _ _ _ h => ?_
  refine repCls_mono h fun _ _ _ _ h => ?_
  refine repCls_mono h fun _ _ _ _ h => ?_
  cases h
  rfl

theorem matchALIAS_article {cs : List Char} {caps : AliasCaps}
    (h : matchALIAS cs = some caps) :
    ∃ ds m, caps.g1 = ds ++ m ∧ ds ≠ [] ∧ ds.all isDigitC = true ∧
      (m = [] ∨ ∃ c, m = [c] ∧ isOrdMark c = true) := by
  unfold matchALIAS at h
  obtain ⟨ds, m, rest, hne, hall, hm, h⟩ := reArtNum_some h
  refine ⟨ds, m, ?_, hne, hall, hm⟩
  refine repCls_mono h fun _ _ _ _ h => ?_
  refine optCls_mono h fun _ _ _ h => ?_
  refine repCls_mono h fun _ _ _ _ h => ?_
  refine repCls_mono h fun g2 rest2 _ _ h => ?_
  by_cases hr : rest2 = []
  · rw [if_pos hr] at h
    cases h
    rfl
  · rw [if_neg hr] at h
    cases h

/-- Inversion of the ID-grammar alternation: the first capture lowercases
to one of the five type-code strings. -/
theorem idTypeAlt_cases {cs : List Char} {k : List Char → List Char → Option (IdCaps)}
    {r : IdCaps} (h : idTypeAlt cs k = some r) (P : Prop)
    (hk : ∀ con rest,
      (toLowerL con = "lei".data ∨ toLowerL con = "lc".data ∨ toLowerL con = "mp".data ∨
       toLowerL con = "decreto".data ∨ toLowerL con = "constituicao".data) →
      k con rest = some r → P) : P := by
  unfold idTypeAlt at h
  cases h1 : litCI "lei".data cs k with
  | some r2 =>
    rw [h1] at h
    dsimp only at h
    refine litCI_mono (h1.trans h) fun con rest hlow hkk =>
      hk con rest (Or.inl (by rw [hlow]; decide)) hkk
  | none =>
    rw [h1] at h
    dsimp only at h
    cases h2 : litCI "lc".data cs k with
    | some r2 =>
      rw [h2] at h
      dsimp only at h
      refine litCI_mono (h2.trans h) fun con rest hlow hkk =>
        hk con rest (Or.inr (Or.inl (by rw [hlow]; decide))) hkk
    | none =>
      rw [h2] at h
      dsimp only at h
      cases h3 : litCI "mp".data cs k with
      | some r2 =>
        rw [h3] at h
        dsimp only at h
        refine litCI_mono (h3.trans h) fun con rest hlow hkk =>
          hk con rest (Or.inr (Or.inr (Or.inl (by rw [hlow]; decide)))) hkk
      | none =>
        rw [h3] at h
        dsimp only at h
        cases h4 : litCI "decreto".data cs k with
        | some r2 =>
          rw [h4] at h
          dsimp only at h
          refine litCI_mono (h4.trans h) fun con rest hlow hkk =>
            hk con rest (Or.inr (Or.inr (Or.inr (Or.inl (by rw [hlow]; decide))))) hkk
        | none =>
          rw [h4] at h
          dsimp only at h
          refine litCI_mono h fun con rest hlow hkk =>
            hk con rest (Or.inr (Or.inr (Or.inr (Or.inr (by rw [hlow]; decide))))) hkk

theorem matchID_inv {cs : List Char} {caps : IdCaps}
    (h : matchID cs = some caps) :
    (toLowerL caps.g1 = "lei".data ∨ toLowerL caps.g1 = "lc".data ∨
     toLowerL caps.g1 = "mp".data ∨ toLowerL caps.g1 = "decreto".data ∨
     toLowerL caps.g1 = "constituicao".data) ∧
    ∃ ds m, caps.g4 = ds ++ m ∧ ds ≠ [] ∧ ds.all isDigitC = true ∧
      (m = [] ∨ ∃ c, m = [c] ∧ isOrdMark c = true) := by
  unfold matchID at h
  refine idTypeAlt_cases h _ fun g1 rest1 hw h => ?_
  refine charE_mono h fun _ _ _ h => ?_
  refine repCls_mono h fun _ _ _ _ h => ?_
  refine charE_mono h fun _ _ _ h => ?_
  refine repCls_mono h fun _ _ _ _ h => ?_
  refine repCls_mono h fun _ _ _ _ h => ?_
  refine optCls_mono h fun _ _ _ h => ?_
  refine repCls_mono h fun _ _ _ _ h => ?_
  refine litCI_mono h fun _ _ _ h => ?_
  refine optCls_mono h fun _ _ _ h => ?_
  refine repCls_mono h fun _ _ _ _ h => ?_
  refine repCls_mono h fun ds cs2 hall hlen h => ?_
  refine optCls_mono h fun m cs3 hm h => ?_
  cases h
  refine ⟨hw, ds, m, rfl, ?_, hall, hm⟩
  intro hnil
  rw [hnil] at hlen
  simp at hlen

/-! ## stripOrdinal on captured article numbers -/

theorem stripOrdinal_digits {ds m : List Char} (_hne : ds ≠ [])
    (hall : ds.all isDigitC = true)
    (hm : m = [] ∨ ∃ c, m = [c] ∧ isOrdMark c = true) :
    stripOrdinal (ds ++ m) = ds := by
  have hmem : ∀ a ∈ ds, isDigitC a = true := fun a ha => List.all_eq_true.mp hall a ha
  have hds : ds.reverse.dropWhile isOrdMark = ds.reverse := by
    apply dropWhile_eq_self_of_head
    intro a ha
    exact digit_not_ord (hmem a (List.mem_reverse.mp (head?_mem_of_eq ha)))
  have hdrop : dropTrailingOrd (ds ++ m) = ds := by
    unfold dropTrailingOrd
    rcases hm with rfl | ⟨c, rfl, hc⟩
    · rw [List.append_nil, hds, List.reverse_reverse]
    · rw [List.reverse_append]
      simp only [List.reverse_cons, List.reverse_nil, List.nil_append, List.singleton_append]
      rw [List.dropWhile_cons, if_pos hc, hds, List.reverse_reverse]
  unfold stripOrdinal
  rw [hdrop]
  apply trimList_eq_self
  · intro a ha
    exact digit_not_ws (hmem a (head?_mem_of_eq ha))
  · intro a ha
    rw [List.getLast?_eq_head?_reverse] at ha
    exact digit_not_ws (hmem a (List.mem_reverse.mp (head?_mem_of_eq ha)))

/-! ## Lookup-table value facts -/

theorem lookupTable_mem {β : Type} {t : List (List Char × β)} {key : List Char} {v : β}
    (h : lookupTable t key = some v) : ∃ p ∈ t, p.2 = v := by
  unfold lookupTable at h
  cases hf : t.find? (fun p => p.1 == key) with
  | none => rw [hf] at h; cases h
  | some p =>
    rw [hf] at h
    refine ⟨p, List.mem_of_find?_eq_some hf, ?_⟩
    simpa using h

theorem TYPE_MAP_val_ne_unknown {key : List Char} {v : LawType}
    (h : lookupTable TYPE_MAP key = some v) : v ≠ .unknown := by
  obtain ⟨p, hp, rfl⟩ := lookupTable_mem h
  fin_cases hp <;> decide

theorem ALIAS_MAP_val_ne_unknown {key : List Char} {v : AliasEntry}
    (h : lookupTable ALIAS_MAP key = some v) : v.type ≠ .unknown := by
  obtain ⟨p, hp, rfl⟩ := lookupTable_mem h
  fin_cases hp <;> decide

/-! ## Substring-search soundness -/

theorem startsWithL_append (pat suf : List Char) :
    startsWithL pat (pat ++ suf) = true := by
  induction pat with
  | nil => rfl
  | cons p ps ih => simp [startsWithL, ih]

theorem containsSeq_of_split (pat pre suf : List Char) :
    containsSeq pat (pre ++ pat ++ suf) = true := by
  induction pre with
  | nil =>
    simp only [List.nil_append]
    cases hp : pat ++ suf with
    | nil =>
      rcases List.append_eq_nil.mp hp with ⟨rfl, rfl⟩
      rfl
    | cons c rest =>
      simp only [containsSeq, decide_eq_true_eq]
      left
      rw [← hp]
      exact startsWithL_append pat suf
  | cons c pre ih =>
    simp only [List.cons_append, containsSeq, decide_eq_true_eq]
    right
    simpa using ih

/-! ## Failure of a whole grammar on a first-character mismatch -/

theorem litCI_cons_none {p x : Char} {ps rest : List Char}
    {k : List Char → List Char → Option IdCaps}
    (h : toLowerC x ≠ toLowerC p) : litCI (p :: ps) (x :: rest) k = none := by
  simp [litCI, h]

theorem matchID_none_of_head {x : Char} {rest : List Char} (hx : toLowerC x = 'a') :
    matchID (x :: rest) = none := by
  have h1 : ∀ (p : Char), toLowerC p ≠ 'a' → ∀ (ps : List Char)
      (k : List Char → List Char → Option IdCaps),
      litCI (p :: ps) (x :: rest) k = none := by
    intro p hp ps k
    refine litCI_cons_none ?_
    rw [hx]
    exact fun h2 => hp h2.symm
  unfold matchID idTypeAlt
  rw [h1 'l' (by decide) _ _, h1 'l' (by decide) _ _, h1 'm' (by decide) _ _,
    h1 'd' (by decide) _ _, h1 'c' (by decide) _ _]

theorem matchFULL_head {cs : List Char} {caps : FullCaps}
    (h : matchFULL cs = some caps) :
    ∃ x rest, cs = x :: rest ∧ toLowerC x = 'a' := by
  unfold matchFULL reArtNum at h
  obtain ⟨con, rest, heq, hlow, _⟩ := litCI_some h
  have hart : toLowerL "art".data = 'a' :: 'r' :: 't' :: [] := by decide
  rw [hart] at hlow
  cases con with
  | nil => simp [toLowerL] at hlow
  | cons x con2 =>
    simp only [toLowerL, List.map_cons, List.cons.injEq] at hlow
    exact ⟨x, con2 ++ rest, by simpa using heq, hlow.1⟩

theorem matchID_none_of_matchFULL {cs : List Char} {caps : FullCaps}
    (h : matchFULL cs = some caps) : matchID cs = none := by
  obtain ⟨x, rest, rfl, hx⟩ := matchFULL_head h
  exact matchID_none_of_head hx

/-! # Claims -/

/-- C1: for every input string, if `parseCitation` returns a result with
`valid = true` then its kind is not `unknown` and its `article` field is
present and non-empty; and validity coincides with `grammarsResolve`, a
predicate on the grammar matchers alone, so the pinpoint fields
(paragraph/inciso/alinea) never affect validity. -/
theorem parseCitation_valid_invariant (s : List Char) :
    (parseCitation s).valid = grammarsResolve (normTrimmed s) ∧
    ((parseCitation s).valid = true →
      (parseCitation s).type ≠ .unknown ∧
      ∃ a, (parseCitation s).article = some a ∧ a ≠ []) := by
  cases hID : matchID (normTrimmed s) with
  | some caps =>
    simp only [parseCitation, grammarsResolve, hID, Option.isSome_some, Bool.true_or,
      mkIdParsed]
    refine ⟨trivial, fun _ => ?_⟩
    obtain ⟨hw, ds, m, hg4, hne, hall, hm⟩ := matchID_inv hID
    constructor
    · rcases hw with h5 | h5 | h5 | h5 | h5 <;> (rw [h5]; decide)
    · refine ⟨stripOrdinal caps.g4, rfl, ?_⟩
      rw [hg4, stripOrdinal_digits hne hall hm]
      exact hne
  | none =>
  cases hFULL : matchFULL (normTrimmed s) with
  | some caps =>
    simp only [parseCitation, grammarsResolve, hID, hFULL, Option.isSome_some,
      Option.isSome_none, Bool.false_or, Bool.true_or, mkFullParsed]
    refine ⟨trivial, fun _ => ?_⟩
    obtain ⟨ds, m, hg1, hne, hall, hm⟩ := matchFULL_article hFULL
    constructor
    · cases hlk : lookupTable TYPE_MAP (removeAccents (toLowerL caps.g2)) with
      | none => decide
      | some v => simpa using TYPE_MAP_val_ne_unknown hlk
    · refine ⟨stripOrdinal caps.g1, rfl, ?_⟩
      rw [hg1, stripOrdinal_digits hne hall hm]
      exact hne
  | none =>
  cases hSHORT : matchSHORT (normTrimmed s) with
  | some caps =>
    simp only [parseCitation, grammarsResolve, hID, hFULL, hSHORT, Option.isSome_some,
      Option.isSome_none, Bool.false_or, Bool.true_or, mkShortParsed]
    refine ⟨trivial, fun _ => ?_⟩
    obtain ⟨ds, m, hg1, hne, hall, hm⟩ := matchSHORT_article hSHORT
    constructor
    · cases hlk : lookupTable TYPE_MAP (removeAccents (toLowerL caps.g2)) with
      | none => decide
      | some v => simpa using TYPE_MAP_val_ne_unknown hlk
    · refine ⟨stripOrdinal caps.g1, rfl, ?_⟩
      rw [hg1, stripOrdinal_digits hne hall hm]
      exact hne
  | none =>
  cases hAL : matchALIAS (normTrimmed s) with
  | some caps =>
    obtain ⟨ds, m, hg1, hne, hall, hm⟩ := matchALIAS_article hAL
    have hart : stripOrdinal caps.g1 ≠ [] := by
      rw [hg1, stripOrdinal_digits hne hall hm]
      exact hne
    cases hlk : lookupTable ALIAS_MAP (toLowerL (trimList caps.g2)) with
    | some al =>
      have hjx : jsIndex ALIAS_MAP (toLowerL (trimList caps.g2)) = .own al := by
        unfold jsIndex
        rw [hlk]
      simp only [parseCitation, grammarsResolve, hID, hFULL, hSHORT, hAL, hjx,
        Option.isSome_some, Option.isSome_none, Bool.false_or, mkAliasParsed,
        JsProp.truthy]
      refine ⟨trivial, fun _ => ?_⟩
      exact ⟨ALIAS_MAP_val_ne_unknown hlk, stripOrdinal caps.g1, rfl, hart⟩
    | none =>
      by_cases hpk : toLowerL (trimList caps.g2) ∈ PROTO_KEYS
      · have hjx : jsIndex ALIAS_MAP (toLowerL (trimList caps.g2)) = .inherited := by
          unfold jsIndex
          rw [hlk, if_pos hpk]
        simp only [parseCitation, grammarsResolve, hID, hFULL, hSHORT, hAL, hjx,
          Option.isSome_some, Option.isSome_none, Bool.false_or, mkProtoAliasParsed,
          JsProp.truthy]
        refine ⟨trivial, fun _ => ?_⟩
        exact ⟨by decide, stripOrdinal caps.g1, rfl, hart⟩
      · have hjx : jsIndex ALIAS_MAP (toLowerL (trimList caps.g2)) = .undefined := by
          unfold jsIndex
          rw [hlk, if_neg hpk]
        simp only [parseCitation, grammarsResolve, hID, hFULL, hSHORT, hAL, hjx,
          Option.isSome_some, Option.isSome_none, Bool.false_or, mkFailParsed,
          JsProp.truthy]
        exact ⟨trivial, fun hv => by cases hv⟩
  | none =>
    simp only [parseCitation, grammarsResolve, hID, hFULL, hSHORT, hAL,
      Option.isSome_none, Bool.false_or, mkFailParsed]
    exact ⟨trivial, fun hv => by cases hv⟩

/-- Witness for C1 at the concrete alias citation `art. 5, lgpd`. -/
theorem parseCitation_valid_invariant_witness :
    (parseCitation "art. 5, lgpd".data).valid = true ∧
    ((parseCitation "art. 5, lgpd".data).type ≠ .unknown ∧
      ∃ a, (parseCitation "art. 5, lgpd".data).article = some a ∧ a ≠ []) :=
  ⟨by decide, (parseCitation_valid_invariant "art. 5, lgpd".data).2 (by decide)⟩

/-- C2 (amended): `parseCitation` is a total function, and when no grammar
resolves the input (the three structural grammars fail and any alias match
has a key whose indexing yields `undefined` — neither an ALIAS_MAP entry
nor an inherited `Object.prototype` member) it returns exactly the failure
record `{valid := false, type := unknown}` whose error message quotes the
*trimmed* input text. -/
theorem parseCitation_no_match_failure (s : List Char)
    (hID : matchID (normTrimmed s) = none)
    (hFULL : matchFULL (normTrimmed s) = none)
    (hSHORT : matchSHORT (normTrimmed s) = none)
    (hAL : ∀ caps, matchALIAS (normTrimmed s) = some caps →
      jsIndex ALIAS_MAP (toLowerL (trimList caps.g2)) = .undefined) :
    parseCitation s =
      { valid := false, type := .unknown,
        error := some (("Could not parse Brazilian citation: \"".data
          ++ trimList s) ++ "\"".data) } := by
  cases hA : matchALIAS (normTrimmed s) with
  | some caps =>
    simp [parseCitation, hID, hFULL, hSHORT, hA, hAL caps hA, mkFailParsed]
  | none =>
    simp [parseCitation, hID, hFULL, hSHORT, hA, mkFailParsed]

/-- Witness for C2 at `not a citation at all`. -/
theorem parseCitation_no_match_failure_witness :
    parseCitation "not a citation at all".data =
      { valid := false, type := .unknown,
        error := some (("Could not parse Brazilian citation: \"".data
          ++ trimList "not a citation at all".data) ++ "\"".data) } :=
  parseCitation_no_match_failure "not a citation at all".data (by decide) (by decide)
    (by decide)
    (fun caps h => by
      rw [show matchALIAS (normTrimmed "not a citation at all".data) = none from by decide]
        at h
      cases h)

/-- Counterexample for C2 as stated: on the padded input `" @@@ "` the
error message quotes the trimmed text `@@@`, and the original untrimmed
input ` @@@ ` does not occur anywhere in the message. -/
theorem parseCitation_error_untrimmed_counterexample :
    (parseCitation " @@@ ".data).error
      = some "Could not parse Brazilian citation: \"@@@\"".data ∧
    ¬ ∃ pre suf, "Could not parse Brazilian citation: \"@@@\"".data
      = pre ++ " @@@ ".data ++ suf := by
  constructor
  · decide
  · rintro ⟨pre, suf, hsplit⟩
    have h2 := containsSeq_of_split " @@@ ".data pre suf
    rw [← hsplit] at h2
    exact absurd h2 (by decide)

/-- Counterexample for C3 as stated: the lowercased alias key
`constructor` is not in the Alias Table, yet the parse does not fail —
JS object indexing finds the truthy inherited
`Object.prototype.constructor`, the guard `if (alias)` passes, and the
parser returns a partial `valid = true` record whose law type, number and
year are all absent. -/
theorem parseCitation_priority_counterexample :
    lookupTable ALIAS_MAP (toLowerL (trimList "constructor".data)) = none ∧
    (parseCitation "Art. 1, constructor".data).valid = true ∧
    (parseCitation "Art. 1, constructor".data).number = none ∧
    (parseCitation "Art. 1, constructor".data).year = none := by
  decide

/-- C3 (amended): the grammar cascade is tried in the fixed order id /
full / short / alias.  (a) An input whose normalization matches the full
grammar parses to the full-grammar result (the short grammar never
preempts it); (b) an input that reaches the alias grammar with a key whose
indexing yields `undefined` — neither an ALIAS_MAP entry nor a lowercase
`Object.prototype` property name — yields `valid = false`; (c) an alias
key that hits an inherited `Object.prototype` member (`constructor`,
`__proto__`) instead produces a partial result: `valid = true` with
number and year absent. -/
theorem parseCitation_priority (s t u : List Char) (caps : FullCaps)
    (capsA capsB : AliasCaps)
    (hfull : matchFULL (normTrimmed s) = some caps)
    (hIDt : matchID (normTrimmed t) = none)
    (hFULLt : matchFULL (normTrimmed t) = none)
    (hSHORTt : matchSHORT (normTrimmed t) = none)
    (hALt : matchALIAS (normTrimmed t) = some capsA)
    (hkey : jsIndex ALIAS_MAP (toLowerL (trimList capsA.g2)) = .undefined)
    (hIDu : matchID (normTrimmed u) = none)
    (hFULLu : matchFULL (normTrimmed u) = none)
    (hSHORTu : matchSHORT (normTrimmed u) = none)
    (hALu : matchALIAS (normTrimmed u) = some capsB)
    (hkeyu : jsIndex ALIAS_MAP (toLowerL (trimList capsB.g2)) = .inherited) :
    parseCitation s = mkFullParsed caps (extractPinpoints (normTrimmed s)) ∧
    (parseCitation t).valid = false ∧
    ((parseCitation u).valid = true ∧ (parseCitation u).number = none ∧
      (parseCitation u).year = none) := by
  refine ⟨?_, ?_, ?_⟩
  · have hIDs : matchID (normTrimmed s) = none := matchID_none_of_matchFULL hfull
    simp [parseCitation, hIDs, hfull]
  · simp [parseCitation, hIDt, hFULLt, hSHORTt, hALt, hkey, mkFailParsed]
  · simp [parseCitation, hIDu, hFULLu, hSHORTu, hALu, hkeyu, mkProtoAliasParsed]

/-- Witness for C3: the dated full citation is parsed by the full grammar,
the unresolved alias `Art. 5, Foobar` fails, and the prototype-chain alias
`Art. 1, constructor` yields the partial valid record. -/
theorem parseCitation_priority_witness :
    parseCitation "Art. 1º, Lei nº 13.709, de 14 de agosto de 2018".data
      = mkFullParsed ⟨"1º".data, "Lei".data, "13.709".data, "14".data,
          "agosto".data, "2018".data⟩
          (extractPinpoints
            (normTrimmed "Art. 1º, Lei nº 13.709, de 14 de agosto de 2018".data)) ∧
    (parseCitation "Art. 5, Foobar".data).valid = false ∧
    ((parseCitation "Art. 1, constructor".data).valid = true ∧
      (parseCitation "Art. 1, constructor".data).number = none ∧
      (parseCitation "Art. 1, constructor".data).year = none) :=
  parseCitation_priority "Art. 1º, Lei nº 13.709, de 14 de agosto de 2018".data
    "Art. 5, Foobar".data "Art. 1, constructor".data
    ⟨"1º".data, "Lei".data, "13.709".data, "14".data, "agosto".data, "2018".data⟩
    ⟨"5".data, "Foobar".data⟩ ⟨"1".data, "constructor".data⟩
    (by decide) (by decide) (by decide) (by decide) (by decide) (by decide)
    (by decide) (by decide) (by decide) (by decide) (by decide)

/-- C5: the full-grammar literal parses to the expected tuple; in
particular the thousands-separator dots of `13.709` are stripped before
integer conversion. -/
theorem parseCitation_full_literal :
    (parseCitation "Art. 1º, Lei nº 13.709, de 14 de agosto de 2018".data).valid = true ∧
    (parseCitation "Art. 1º, Lei nº 13.709, de 14 de agosto de 2018".data).type = .lei ∧
    (parseCitation "Art. 1º, Lei nº 13.709, de 14 de agosto de 2018".data).number
      = some 13709 ∧
    (parseCitation "Art. 1º, Lei nº 13.709, de 14 de agosto de 2018".data).year
      = some 2018 ∧
    (parseCitation "Art. 1º, Lei nº 13.709, de 14 de agosto de 2018".data).article
      = some "1".data := by
  decide

/-- C8: formatting returns the empty string (rather than failing) whenever
the citation is invalid or its article is absent, for every format style. -/
theorem formatCitation_invalid_empty (c : ParsedCitation) (format : CitationFormat)
    (h : c.valid = false ∨ c.article = none) :
    formatCitation c format = [] := by
  have hc : ¬ c.valid = true ∨ jsFalsyStr c.article = true := by
    rcases h with h | h
    · left
      simp [h]
    · right
      simp [jsFalsyStr, h]
  unfold formatCitation
  rw [if_pos hc]

/-- Witness for C8: an invalid citation formats to the empty string. -/
theorem formatCitation_invalid_empty_witness :
    formatCitation { valid := false, type := .unknown } .full = [] :=
  formatCitation_invalid_empty { valid := false, type := .unknown } .full (Or.inl rfl)

/-! ## NFD inertness, for the idempotence of the normalizer -/

theorem NFD_TABLE_facts : ∀ p ∈ NFD_TABLE,
    isCombining p.2.2 = true ∧ isCombining p.2.1 = false ∧
    NFD_TABLE.find? (fun q => q.1 == p.2.1) = none := by
  decide

theorem removeAccents_mem {cs : List Char} {x : Char} (h : x ∈ removeAccents cs) :
    nfdChar x = [x] ∧ isCombining x = false := by
  unfold removeAccents at h
  rw [List.mem_filter] at h
  obtain ⟨hmem, hcomb⟩ := h
  have hcomb2 : isCombining x = false := by simpa using hcomb
  refine ⟨?_, hcomb2⟩
  rw [List.mem_flatMap] at hmem
  obtain ⟨c, _, hx⟩ := hmem
  unfold nfdChar at hx
  cases hf : NFD_TABLE.find? (fun p => p.1 == c) with
  | some p =>
    rw [hf] at hx
    obtain ⟨hc1, _, hc3⟩ := NFD_TABLE_facts p (List.mem_of_find?_eq_some hf)
    simp only [List.mem_cons, List.not_mem_nil, or_false] at hx
    rcases hx with rfl | rfl
    · unfold nfdChar
      rw [hc3]
    · rw [hc1] at hcomb2
      cases hcomb2
  | none =>
    rw [hf] at hx
    simp only [List.mem_singleton] at hx
    subst hx
    unfold nfdChar
    rw [hf]

theorem removeAccents_eq_self {us : List Char}
    (h : ∀ x ∈ us, nfdChar x = [x] ∧ isCombining x = false) :
    removeAccents us = us := by
  induction us with
  | nil => rfl
  | cons x rest ih =>
    have hx := h x (by simp)
    have ih2 := ih (fun y hy => h y (by simp [hy]))
    unfold removeAccents at ih2 ⊢
    simp only [List.flatMap_cons, List.filter_append]
    rw [hx.1, ih2]
    have hsing : List.filter (fun c => ¬ isCombining c) [x] = [x] := by
      simp [List.filter, hx.2]
    rw [hsing]
    rfl

/-- C9: the normalizer — NFD decomposition, stripping of combining
diacritical marks, then whitespace trimming — is idempotent. -/
theorem normalize_idempotent (s : List Char) :
    normalize (normalize s) = normalize s := by
  unfold normalize
  have h1 : removeAccents (trimList (removeAccents s)) = trimList (removeAccents s) :=
    removeAccents_eq_self (fun x hx => removeAccents_mem (mem_of_mem_trimList hx))
  rw [h1, trimList_trimList]

/-- C6: when a citation parses and resolves to a document whose store
status is `repealed`, the validator reports `document_exists = true`, keeps
the parsed citation valid, and includes the repeal warning. -/
theorem validateCitation_repealed (db : Db) (s : List Char) (doc : DocRow)
    (hvalid : (parseCitation s).valid = true)
    (hdoc : validatorLookupDoc db (parseCitation s)
      (buildDocumentId (parseCitation s).type (parseCitation s).number
        (parseCitation s).year) = some doc)
    (hstatus : doc.status = "repealed".data) :
    (validateCitation db s).document_exists = true ∧
    (validateCitation db s).citation = parseCitation s ∧
    (validateCitation db s).citation.valid = true ∧
    "This law has been repealed".data ∈ (validateCitation db s).warnings := by
  unfold validateCitation
  rw [if_neg (by simp [hvalid])]
  simp only [hdoc, hstatus, if_pos rfl]
  refine ⟨by trivial, by trivial, hvalid, ?_⟩
  split
  · simp
  · split
    · simp
    · simp

/-- Witness for C6: a store holding a repealed LGPD record. -/
theorem validateCitation_repealed_witness :
    (validateCitation
        ⟨[⟨"lei-13709-2018".data, "LGPD".data, "repealed".data, none⟩], []⟩
        "Art. 1, LGPD".data).document_exists = true ∧
    (validateCitation
        ⟨[⟨"lei-13709-2018".data, "LGPD".data, "repealed".data, none⟩], []⟩
        "Art. 1, LGPD".data).citation = parseCitation "Art. 1, LGPD".data ∧
    (validateCitation
        ⟨[⟨"lei-13709-2018".data, "LGPD".data, "repealed".data, none⟩], []⟩
        "Art. 1, LGPD".data).citation.valid = true ∧
    "This law has been repealed".data ∈
      (validateCitation
        ⟨[⟨"lei-13709-2018".data, "LGPD".data, "repealed".data, none⟩], []⟩
        "Art. 1, LGPD".data).warnings :=
  validateCitation_repealed
    ⟨[⟨"lei-13709-2018".data, "LGPD".data, "repealed".data, none⟩], []⟩
    "Art. 1, LGPD".data
    ⟨"lei-13709-2018".data, "LGPD".data, "repealed".data, none⟩
    (by decide) (by decide) (by decide)

/-- C7 (amended): `resolveExistingStatuteId` consults, in order, the raw
input id, the alias-table mapping of the lowercase-trimmed input, and the
reference-notation normalization, each through the exact existence check and
short-circuiting on the first hit; the whitespace/hyphen separator variants
produced by `statuteIdCandidates` are not consulted.  Only when all three
exact candidates miss does it fall back to the substring title match,
returning its first hit or none. -/
theorem resolveExistingStatuteId_order (db db2 : Db) (input input2 : List Char)
    (d : DocRow)
    (ha : db.docs.find? (fun x => x.id == input) = some d)
    (h1 : db2.docs.find? (fun x => x.id == input2) = none)
    (h2 : ∀ mapped, lookupTable SHORT_NAME_MAP (toLowerL (trimList input2)) = some mapped →
      db2.docs.find? (fun x => x.id == mapped) = none)
    (h3 : ∀ normal, normalizeReference (trimList input2) = some normal →
      db2.docs.find? (fun x => x.id == normal) = none) :
    resolveExistingStatuteId db input = some d.id ∧
    resolveExistingStatuteId db2 input2
      = (db2.docs.find? (fun x => likeContains input2 x.title)).map (fun x => x.id) := by
  constructor
  · unfold resolveExistingStatuteId
    rw [ha]
  · unfold resolveExistingStatuteId
    rw [h1]
    dsimp only
    cases hm : lookupTable SHORT_NAME_MAP (toLowerL (trimList input2)) with
    | some mapped =>
      simp only [h2 mapped hm, Option.map_none]
      cases hn : normalizeReference (trimList input2) with
      | some normal =>
        simp only [h3 normal hn, Option.map_none]
        rfl
      | none => rfl
    | none =>
      cases hn : normalizeReference (trimList input2) with
      | some normal =>
        simp only [h3 normal hn, Option.map_none]
        rfl
      | none => rfl

/-- Witness for C7's amended statement: an exact hit short-circuits, and a
miss on all exact candidates falls through to the (empty) title match. -/
theorem resolveExistingStatuteId_order_witness :
    resolveExistingStatuteId
      ⟨[⟨"lei-13709-2018".data, "LGPD".data, "in_force".data, none⟩], []⟩
      "lei-13709-2018".data = some "lei-13709-2018".data ∧
    resolveExistingStatuteId
      ⟨[⟨"lei-13709-2018".data, "LGPD".data, "in_force".data, none⟩], []⟩
      "lei 13709 2018".data
      = (DocRow.id <$> List.find?
          (fun x => likeContains "lei 13709 2018".data x.title)
          [⟨"lei-13709-2018".data, "LGPD".data, "in_force".data, none⟩]) :=
  resolveExistingStatuteId_order
    ⟨[⟨"lei-13709-2018".data, "LGPD".data, "in_force".data, none⟩], []⟩
    ⟨[⟨"lei-13709-2018".data, "LGPD".data, "in_force".data, none⟩], []⟩
    "lei-13709-2018".data "lei 13709 2018".data
    ⟨"lei-13709-2018".data, "LGPD".data, "in_force".data, none⟩
    (by decide) (by decide)
    (fun mapped hm => by
      rw [show lookupTable SHORT_NAME_MAP
        (toLowerL (trimList "lei 13709 2018".data)) = none from by decide] at hm
      cases hm)
    (fun normal hn => by
      rw [show normalizeReference (trimList "lei 13709 2018".data) = none
        from by decide] at hn
      cases hn)

/-- Counterexample for C7 as stated: for the input `lei 13709 2018` the
separator-variant candidate `lei-13709-2018` is generated by
`statuteIdCandidates` and exists in the store, yet
`resolveExistingStatuteId` returns none — the resolver never consults the
separator variants. -/
theorem resolveExistingStatuteId_counterexample :
    "lei-13709-2018".data ∈ statuteIdCandidates "lei 13709 2018".data ∧
    dbExistsId ⟨[⟨"lei-13709-2018".data, "LGPD".data, "in_force".data, none⟩], []⟩
      "lei-13709-2018".data = true ∧
    resolveExistingStatuteId
      ⟨[⟨"lei-13709-2018".data, "LGPD".data, "in_force".data, none⟩], []⟩
      "lei 13709 2018".data = none := by
  decide

/-- C10: without an article reference, `getProvision` returns at most
`MAX_ALL_PROVISIONS` (200) provisions; when the store holds more than 200
for the document the result is wrapped as `{provisions, truncated := true,
total}` with `total` the full count, and otherwise the untruncated mapped
list is returned directly. -/
theorem getProvision_no_article_cap (db : Db) (input : GetProvisionInput) (d : List Char)
    (hdoc : (match input.document_id with
             | some x => some x
             | none => input.law_identifier) = some d)
    (hne : d ≠ [])
    (hpr : input.provision_ref = none) (hart : input.article = none) :
    let rid := (resolveExistingStatuteId db d).getD d
    let docRow := db.docs.find? (fun x => x.id == rid)
    let baseUrl := (docRow.bind (fun x => x.url)).getD
      "https://www.planalto.gov.br/ccivil_03/".data
    let docProvs := db.provs.filter (fun p => p.document_id == rid)
    let total := docProvs.length
    let rows := match docRow with
      | none => []
      | some doc => (docProvs.take MAX_ALL_PROVISIONS).map (toResult doc baseUrl)
    getProvision db input =
      (if total > MAX_ALL_PROVISIONS then .ok (.capped rows true total)
       else .ok (.many rows)) ∧
    rows.length ≤ MAX_ALL_PROVISIONS ∧
    (¬ total > MAX_ALL_PROVISIONS →
      rows = (match docRow with
              | none => []
              | some doc => docProvs.map (toResult doc baseUrl))) := by
  intro rid docRow baseUrl docProvs total rows
  have hfalsy : jsFalsyStr (match input.document_id with
      | some x => some x
      | none => input.law_identifier) = false := by
    rw [hdoc]
    cases d with
    | nil => exact absurd rfl hne
    | cons a l => rfl
  refine ⟨?_, ?_, ?_⟩
  · unfold getProvision
    rw [if_neg (by simp [hfalsy])]
    rw [hdoc]
    simp only [Option.getD_some, hpr, hart]
    rw [if_pos (by simp [jsFalsyStr])]
  · cases hd : docRow with
    | none => simp [rows, hd]
    | some doc =>
      simp only [rows, hd, List.length_map, List.length_take]
      omega
  · intro hle
    cases hd : docRow with
    | none => simp [rows, hd]
    | some doc =>
      simp only [rows, hd]
      have : docProvs.take MAX_ALL_PROVISIONS = docProvs := by
        apply List.take_of_length_le
        simp only [total] at hle
        omega
      rw [this]

/-- Witness for C10: a store with two provisions for a document. -/
theorem getProvision_no_article_cap_witness :
    getProvision
      ⟨[⟨"lei-1-2000".data, "Lei Um".data, "in_force".data, none⟩],
       [⟨"lei-1-2000".data, "art1".data, none, "1".data, none, "a".data⟩,
        ⟨"lei-1-2000".data, "art2".data, none, "2".data, none, "b".data⟩]⟩
      ⟨some "lei-1-2000".data, none, none, none⟩
    = .ok (.many
        [toResult ⟨"lei-1-2000".data, "Lei Um".data, "in_force".data, none⟩
           "https://www.planalto.gov.br/ccivil_03/".data
           ⟨"lei-1-2000".data, "art1".data, none, "1".data, none, "a".data⟩,
         toResult ⟨"lei-1-2000".data, "Lei Um".data, "in_force".data, none⟩
           "https://www.planalto.gov.br/ccivil_03/".data
           ⟨"lei-1-2000".data, "art2".data, none, "2".data, none, "b".data⟩]) := by
  have h := (getProvision_no_article_cap
    ⟨[⟨"lei-1-2000".data, "Lei Um".data, "in_force".data, none⟩],
     [⟨"lei-1-2000".data, "art1".data, none, "1".data, none, "a".data⟩,
      ⟨"lei-1-2000".data, "art2".data, none, "2".data, none, "b".data⟩]⟩
    ⟨some "lei-1-2000".data, none, none, none⟩
    "lei-1-2000".data (by decide) (by decide) rfl rfl).1
  rw [h]
  rfl

/-! ## C4: counterexample and supporting lemmas for the round-trip -/

/-- Counterexample for C4 as stated: a valid `ParsedCitation` with no
pinpoint fields whose article is the non-digit string `x` does not
round-trip — its full rendering does not re-parse, so the inner format
returns the empty string. -/
theorem formatCitation_roundtrip_counterexample :
    formatCitation
      (parseCitation (formatCitation
        { valid := true, type := .lei, number := some 13709, year := some 2018,
          article := some "x".data } .full)) .pinpoint
    ≠ formatCitation
      { valid := true, type := .lei, number := some 13709, year := some 2018,
        article := some "x".data } .pinpoint := by
  decide

/-! ### Forward-evaluation lemmas for the engine -/

section EngineEval

variable {α : Type u} {r : α}

theorem tryFrom_first {f : Nat → Option α} {lo n : Nat} (h : f n = some r) :
    tryFrom f lo n = some r := by
  cases n with
  | zero => exact h
  | succ n => simp [tryFrom, h]

theorem leadCount_append_eq {p : Char → Bool} {a b : List Char} (ha : a.all p = true)
    (hb : ∀ c, b.head? = some c → p c = false) :
    leadCount p (a ++ b) = a.length := by
  induction a with
  | nil =>
    cases b with
    | nil => rfl
    | cons c t => simp [leadCount, hb c rfl]
  | cons x a2 ih =>
    simp only [List.all_cons, Bool.and_eq_true] at ha
    simp only [List.cons_append, leadCount, ha.1, if_pos, List.length_cons]
    exact congrArg (· + 1) (ih ha.2)

theorem repCls_evalInf {p : Char → Bool} {lo : Nat} {a b : List Char}
    {k : List Char → List Char → Option α}
    (ha : a.all p = true) (hb : ∀ c, b.head? = some c → p c = false)
    (hlo : lo ≤ a.length) (hk : k a b = some r) :
    repCls p lo none (a ++ b) k = some r := by
  show (if leadCount p (a ++ b) < lo then none
    else tryFrom (fun n => k ((a ++ b).take n) ((a ++ b).drop n)) lo
      (leadCount p (a ++ b))) = some r
  rw [leadCount_append_eq ha hb, if_neg (by omega)]
  apply tryFrom_first
  rw [List.take_left, List.drop_left]
  exact hk

theorem repCls_evalBound {p : Char → Bool} {lo h : Nat} {cs : List Char}
    {k : List Char → List Char → Option α}
    (hm : lo ≤ min h (leadCount p cs))
    (hk : k (cs.take (min h (leadCount p cs))) (cs.drop (min h (leadCount p cs)))
      = some r) :
    repCls p lo (some h) cs k = some r := by
  show (if min h (leadCount p cs) < lo then none
    else tryFrom (fun n => k (cs.take n) (cs.drop n)) lo
      (min h (leadCount p cs))) = some r
  rw [if_neg (by omega)]
  exact tryFrom_first hk

theorem litCI_eval :
    ∀ {pat a : List Char} {b : List Char} {k : List Char → List Char → Option α},
    toLowerL a = toLowerL pat → litCI pat (a ++ b) k = k a b := by
  intro pat
  induction pat with
  | nil =>
    intro a b k h
    have : a = [] := by
      cases a with
      | nil => rfl
      | cons x t => simp [toLowerL] at h
    subst this
    rfl
  | cons p ps ih =>
    intro a b k h
    cases a with
    | nil => simp [toLowerL] at h
    | cons x a2 =>
      simp only [toLowerL, List.map_cons, List.cons.injEq] at h
      simp only [List.cons_append, litCI, if_pos h.1]
      exact ih h.2

theorem charE_eval {p : Char → Bool} {x : Char} {b : List Char}
    {k : List Char → List Char → Option α} (h : p x = true) :
    charE p (x :: b) k = k [x] b := by
  simp [charE, h]

theorem optCls_hit {p : Char → Bool} {x : Char} {b : List Char}
    {k : List Char → List Char → Option α}
    (h : p x = true) (hk : k [x] b = some r) :
    optCls p (x :: b) k = some r := by
  simp [optCls, h, hk]

theorem optCls_miss {p : Char → Bool} {x : Char} {b : List Char}
    {k : List Char → List Char → Option α} (h : p x = false) :
    optCls p (x :: b) k = k [] (x :: b) := by
  simp [optCls, h]

theorem optM_hit {m : List Char → (List Char → List Char → Option α) → Option α}
    {cs : List Char} {k : List Char → List Char → Option α}
    (h : m cs k = some r) : optM m cs k = some r := by
  simp [optM, h]

theorem typeAlt_eval1 {cs : List Char} {k : List Char → List Char → Option α}
    (h : litCI "lei".data cs k = some r) : typeAlt cs k = some r := by
  simp [typeAlt, h]

theorem typeAlt_eval2 {cs : List Char} {k : List Char → List Char → Option α}
    (h1 : litCI "lei".data cs k = none)
    (h : litCI "lei complementar".data cs k = some r) : typeAlt cs k = some r := by
  simp [typeAlt, h1, h]

theorem typeAlt_eval3 {cs : List Char} {k : List Char → List Char → Option α}
    (h1 : litCI "lei".data cs k = none)
    (h2 : litCI "lei complementar".data cs k = none)
    (h : medidaLit cs k = some r) : typeAlt cs k = some r := by
  simp [typeAlt, h1, h2, h]

theorem typeAlt_eval4 {cs : List Char} {k : List Char → List Char → Option α}
    (h1 : litCI "lei".data cs k = none)
    (h2 : litCI "lei complementar".data cs k = none)
    (h3 : medidaLit cs k = none)
    (h : litCI "decreto".data cs k = some r) : typeAlt cs k = some r := by
  simp [typeAlt, h1, h2, h3, h]

end EngineEval

/-! ### Decimal rendering facts -/

theorem char_ofNat_digit {m : Nat} (h : m < 10) :
    isDigitC (Char.ofNat (48 + m)) = true := by
  interval_cases m <;> decide

theorem natCharsAux_all (fuel : Nat) : ∀ n, (natCharsAux fuel n).all isDigitC = true := by
  induction fuel with
  | zero => intro n; rfl
  | succ f ih =>
    intro n
    unfold natCharsAux
    by_cases hn : n = 0
    · simp [hn]
    · rw [if_neg hn, List.all_append, ih (n / 10)]
      simp only [List.all_cons, List.all_nil, Bool.and_true, Bool.true_and]
      exact char_ofNat_digit (Nat.mod_lt _ (by omega))

theorem natChars_all (n : Nat) : (natChars n).all isDigitC = true := by
  unfold natChars
  by_cases hn : n = 0
  · rw [if_pos hn]; decide
  · rw [if_neg hn]; exact natCharsAux_all n n

theorem natChars_ne_nil {n : Nat} (hn : n ≠ 0) : natChars n ≠ [] := by
  unfold natChars
  rw [if_neg hn]
  cases n with
  | zero => exact absurd rfl hn
  | succ m =>
    unfold natCharsAux
    rw [if_neg hn]
    simp

theorem natCharsAux_len_pow :
    ∀ (k fuel n : Nat), 10 ^ k ≤ n → n ≤ fuel → k + 1 ≤ (natCharsAux fuel n).length := by
  intro k
  induction k with
  | zero =>
    intro fuel n h1 h2
    cases fuel with
    | zero => omega
    | succ f =>
      unfold natCharsAux
      rw [if_neg (by omega)]
      simp
  | succ k ih =>
    intro fuel n h1 h2
    have hp : 0 < 10 ^ (k + 1) := Nat.pos_pow_of_pos _ (by omega)
    cases fuel with
    | zero => omega
    | succ f =>
      unfold natCharsAux
      rw [if_neg (by omega), List.length_append]
      simp only [List.length_cons, List.length_nil]
      have hdiv : 10 ^ k ≤ n / 10 := by
        rw [Nat.le_div_iff_mul_le (by omega)]
        calc 10 ^ k * 10 = 10 ^ (k + 1) := by ring
        _ ≤ n := h1
      have hfl : n / 10 ≤ f := by
        have := Nat.div_lt_self (show 0 < n by omega) (show 1 < 10 by omega)
        omega
      have := ih f (n / 10) hdiv hfl
      omega

theorem natChars_len4 {y : Nat} (h : 1000 ≤ y) : 4 ≤ (natChars y).length := by
  unfold natChars
  rw [if_neg (by omega)]
  have := natCharsAux_len_pow 3 y y (by norm_num; omega) (le_refl y)
  omega

theorem digit_isNumDot {c : Char} (h : isDigitC c = true) : isNumDot c = true := by
  simp [isNumDot, h]

theorem all_digit_numDot {l : List Char} (h : l.all isDigitC = true) :
    l.all isNumDot = true := by
  induction l with
  | nil => rfl
  | cons x t ih =>
    simp only [List.all_cons, Bool.and_eq_true] at h ⊢
    exact ⟨digit_isNumDot h.1, ih h.2⟩

theorem groupRev_all {l : List Char} (hl : l.all isDigitC = true) :
    (groupRev l).all isNumDot = true := by
  induction l using groupRev.induct with
  | case1 a b c d rest ih =>
    simp only [List.all_cons, Bool.and_eq_true] at hl
    obtain ⟨h1, h2, h3, h4⟩ := hl
    simp only [groupRev, List.all_cons, Bool.and_eq_true]
    refine ⟨digit_isNumDot h1, digit_isNumDot h2, digit_isNumDot h3, by decide, ?_⟩
    exact ih (by simp only [List.all_cons, Bool.and_eq_true]; exact h4)
  | case2 l h =>
    rw [groupRev.eq_2 l h]
    exact all_digit_numDot hl

theorem groupRev_ne_nil {l : List Char} (hl : l ≠ []) : groupRev l ≠ [] := by
  induction l using groupRev.induct with
  | case1 a b c d rest ih => simp [groupRev]
  | case2 l h =>
    rw [groupRev.eq_2 l h]
    exact hl

theorem groupRev_getLast? {l : List Char} (hl : l ≠ []) :
    (groupRev l).getLast? = l.getLast? := by
  induction l using groupRev.induct with
  | case1 a b c d rest ih =>
    have hne : groupRev (d :: rest) ≠ [] := groupRev_ne_nil (by simp)
    have h1 : groupRev (a :: b :: c :: d :: rest)
        = [a, b, c, '.'] ++ groupRev (d :: rest) := rfl
    have h2 : a :: b :: c :: d :: rest = [a, b, c] ++ d :: rest := rfl
    rw [h1, List.getLast?_append_of_ne_nil _ hne, ih (by simp), h2,
      List.getLast?_append_of_ne_nil _ (by simp)]
  | case2 l h =>
    rw [groupRev.eq_2 l h]

/-! ### Further engine helpers: explicit-argument eval forms, failure forms -/

section EngineEval2

variable {α : Type u} {r : α}

theorem leadCount_all {p : Char → Bool} {l : List Char} (h : l.all p = true) :
    leadCount p l = l.length := by
  induction l with
  | nil => rfl
  | cons x t ih =>
    simp only [List.all_cons, Bool.and_eq_true] at h
    simp only [leadCount, h.1, if_pos, List.length_cons]
    exact congrArg (· + 1) (ih h.2)

theorem litCI_evalS (pat a b : List Char) (k : List Char → List Char → Option α)
    (h : toLowerL a = toLowerL pat) (hk : k a b = some r) :
    litCI pat (a ++ b) k = some r := by
  rw [litCI_eval h]; exact hk

theorem charE_evalS (p : Char → Bool) (x : Char) (b : List Char)
    (k : List Char → List Char → Option α) (h : p x = true) (hk : k [x] b = some r) :
    charE p (x :: b) k = some r := by
  rw [charE_eval h]; exact hk

theorem repCls_evalInfS (p : Char → Bool) (lo : Nat) (a b : List Char)
    (k : List Char → List Char → Option α)
    (ha : a.all p = true) (hb : ∀ c, b.head? = some c → p c = false)
    (hlo : lo ≤ a.length) (hk : k a b = some r) :
    repCls p lo none (a ++ b) k = some r :=
  repCls_evalInf ha hb hlo hk

/-- A general-continuation version of `litCI_cons_none`. -/
theorem litCI_cons_noneG {p x : Char} {ps rest : List Char}
    {k : List Char → List Char → Option α}
    (h : toLowerC x ≠ toLowerC p) : litCI (p :: ps) (x :: rest) k = none := by
  simp [litCI, h]

theorem charE_cons_none {p : Char → Bool} {x : Char} {rest : List Char}
    {k : List Char → List Char → Option α}
    (h : p x = false) : charE p (x :: rest) k = none := by
  simp [charE, h]

theorem litCI_cons_eq {p x : Char} {ps rest : List Char}
    {k : List Char → List Char → Option α} (h : toLowerC x = toLowerC p) :
    litCI (p :: ps) (x :: rest) k = litCI ps rest (fun con r => k (x :: con) r) := by
  simp [litCI, h]

/-- Greedy `p*` on input whose head satisfies `p` only once: both the
one-character attempt and the empty attempt fail. -/
theorem repCls01_none {p : Char → Bool} {w : Char} {rest : List Char}
    {k : List Char → List Char → Option α}
    (hw : p w = true) (hr : ∀ c, rest.head? = some c → p c = false)
    (h1 : k [w] rest = none) (h0 : k [] (w :: rest) = none) :
    repCls p 0 none (w :: rest) k = none := by
  have hl : leadCount p (w :: rest) = 1 := by
    have := leadCount_append_eq (a := [w]) (b := rest) (by simp [hw]) hr
    simpa using this
  show (if leadCount p (w :: rest) < 0 then none
    else tryFrom (fun n => k ((w :: rest).take n) ((w :: rest).drop n)) 0
      (leadCount p (w :: rest))) = none
  rw [hl, if_neg (by omega)]
  show (match k ((w :: rest).take 1) ((w :: rest).drop 1) with
    | some r => some r
    | none => if 0 = 1 then none
        else tryFrom (fun n => k ((w :: rest).take n) ((w :: rest).drop n)) 0 0) = none
  rw [show (w :: rest).take 1 = [w] from rfl, show (w :: rest).drop 1 = rest from rfl, h1]
  simpa using h0

/-- Greedy `p+` (`lo = 1`) on input whose head satisfies `p` only once. -/
theorem repCls1_none {p : Char → Bool} {w : Char} {rest : List Char}
    {k : List Char → List Char → Option α}
    (hw : p w = true) (hr : ∀ c, rest.head? = some c → p c = false)
    (h1 : k [w] rest = none) :
    repCls p 1 none (w :: rest) k = none := by
  have hl : leadCount p (w :: rest) = 1 := by
    have := leadCount_append_eq (a := [w]) (b := rest) (by simp [hw]) hr
    simpa using this
  show (if leadCount p (w :: rest) < 1 then none
    else tryFrom (fun n => k ((w :: rest).take n) ((w :: rest).drop n)) 1
      (leadCount p (w :: rest))) = none
  rw [hl, if_neg (by omega)]
  show (match k ((w :: rest).take 1) ((w :: rest).drop 1) with
    | some r => some r
    | none => if 1 = 1 then none
        else tryFrom (fun n => k ((w :: rest).take n) ((w :: rest).drop n)) 1 0) = none
  rw [show (w :: rest).take 1 = [w] from rfl, show (w :: rest).drop 1 = rest from rfl, h1]
  rfl

/-- Greedy repetition fails when fewer than `lo` leading characters match. -/
theorem repCls_lo_none {p : Char → Bool} {lo : Nat} {cs : List Char}
    {k : List Char → List Char → Option α}
    (h : leadCount p cs < lo) : repCls p lo none cs k = none := by
  show (if leadCount p cs < lo then none
    else tryFrom (fun n => k (cs.take n) (cs.drop n)) lo (leadCount p cs)) = none
  rw [if_pos h]

/-- Greedy `p*` on input with no leading match: only the empty attempt. -/
theorem repCls00_none {p : Char → Bool} {cs : List Char}
    {k : List Char → List Char → Option α}
    (h : leadCount p cs = 0) (h0 : k [] cs = none) :
    repCls p 0 none cs k = none := by
  show (if leadCount p cs < 0 then none
    else tryFrom (fun n => k (cs.take n) (cs.drop n)) 0 (leadCount p cs)) = none
  rw [h, if_neg (by omega)]
  exact h0

theorem optM_none {m : List Char → (List Char → List Char → Option α) → Option α}
    {cs : List Char} {k : List Char → List Char → Option α}
    (h1 : m cs k = none) (h0 : k [] cs = none) : optM m cs k = none := by
  unfold optM
  rw [h1]
  exact h0

theorem nGroup_cons_none {x : Char} {rest : List Char}
    {k : List Char → List Char → Option α}
    (h : toLowerC x ≠ 'n') : nGroup (x :: rest) k = none := by
  unfold nGroup
  exact litCI_cons_noneG h

end EngineEval2

/-! ### Split-exposing inversions for the remaining combinators -/

section EngineSplit

variable {α : Type u} {r : α}

theorem typeAlt_someSplit {cs : List Char} {k : List Char → List Char → Option α}
    (h : typeAlt cs k = some r) :
    ∃ con rest, cs = con ++ rest ∧ k con rest = some r := by
  unfold typeAlt at h
  cases h1 : litCI "lei".data cs k with
  | some r2 =>
    rw [h1] at h; dsimp only at h
    obtain ⟨con, rest, he, _, hk⟩ := litCI_some (h1.trans h)
    exact ⟨con, rest, he, hk⟩
  | none =>
    rw [h1] at h; dsimp only at h
    cases h2 : litCI "lei complementar".data cs k with
    | some r2 =>
      rw [h2] at h; dsimp only at h
      obtain ⟨con, rest, he, _, hk⟩ := litCI_some (h2.trans h)
      exact ⟨con, rest, he, hk⟩
    | none =>
      rw [h2] at h; dsimp only at h
      cases h3 : medidaLit cs k with
      | some r2 =>
        rw [h3] at h; dsimp only at h
        have h3b := h3.trans h
        unfold medidaLit at h3b
        obtain ⟨c1, cs1, he1, _, h3b⟩ := litCI_some h3b
        obtain ⟨x, cs2, he2, _, h3b⟩ := charE_some h3b
        obtain ⟨c3, cs3, he3, _, h3b⟩ := litCI_some h3b
        refine ⟨c1 ++ [x] ++ c3, cs3, ?_, h3b⟩
        rw [he1, he2, he3]
        simp [List.append_assoc]
      | none =>
        rw [h3] at h; dsimp only at h
        obtain ⟨con, rest, he, _, hk⟩ := litCI_some h
        exact ⟨con, rest, he, hk⟩

theorem optM_nGroup_someSplit {cs : List Char} {k : List Char → List Char → Option α}
    (h : optM nGroup cs k = some r) :
    ∃ con rest, cs = con ++ rest ∧ k con rest = some r := by
  unfold optM at h
  cases h1 : nGroup cs k with
  | some r2 =>
    rw [h1] at h; dsimp only at h
    have h1b := h1.trans h
    unfold nGroup at h1b
    obtain ⟨c1, cs1, he1, _, h1b⟩ := litCI_some h1b
    obtain ⟨c2, cs2, he2, _, h1b⟩ := optCls_some h1b
    obtain ⟨n3, _, hle3, _, h1b⟩ := repCls_some h1b
    refine ⟨c1 ++ c2 ++ cs2.take n3, cs2.drop n3, ?_, h1b⟩
    rw [he1, he2]
    simp [List.append_assoc]
  | none =>
    rw [h1] at h; dsimp only at h
    exact ⟨[], cs, rfl, h⟩

theorem reArtNum_someSplit {cs : List Char} {k : List Char → List Char → Option α}
    (h : reArtNum cs k = some r) :
    ∃ con g1 rest, cs = con ++ rest ∧ k g1 rest = some r := by
  unfold reArtNum at h
  obtain ⟨c1, cs1, he1, _, h⟩ := litCI_some h
  obtain ⟨c2, cs2, he2, _, h⟩ := optCls_some h
  obtain ⟨n3, _, _, _, h⟩ := repCls_some h
  obtain ⟨n4, _, _, _, h⟩ := repCls_some h
  obtain ⟨m, rest, he5, _, h⟩ := optCls_some h
  refine ⟨c1 ++ c2 ++ cs2.take n3 ++ (cs2.drop n3).take n4 ++ m, _, rest, ?_, h⟩
  rw [he1, he2]
  have e3 : cs2 = cs2.take n3 ++ cs2.drop n3 := (List.take_append_drop n3 cs2).symm
  have e4 : cs2.drop n3 = (cs2.drop n3).take n4 ++ (cs2.drop n3).drop n4 :=
    (List.take_append_drop n4 (cs2.drop n3)).symm
  calc c1 ++ (c2 ++ cs2)
      = c1 ++ (c2 ++ (cs2.take n3 ++ ((cs2.drop n3).take n4 ++ (m ++ rest)))) := by
        rw [← he5, ← e4, ← e3]
    _ = (c1 ++ c2 ++ cs2.take n3 ++ (cs2.drop n3).take n4 ++ m) ++ rest := by
        simp [List.append_assoc]

end EngineSplit

/-! ### Character-level facts -/

theorem toLowerC_eq_self_of_range {c : Char}
    (h : c.toNat < 65 ∨ (90 < c.toNat ∧ c.toNat < 192)) : toLowerC c = c := by
  unfold toLowerC
  rw [if_neg (by omega), if_neg (by omega)]

theorem char_ne_of_toNat {c d : Char} (h : c.toNat ≠ d.toNat) : c ≠ d :=
  fun he => h (he ▸ rfl)

theorem digit_toNat {c : Char} (h : isDigitC c = true) :
    48 ≤ c.toNat ∧ c.toNat ≤ 57 := by
  simpa [isDigitC, decide_eq_true_eq] using h

theorem numDot_toNat {c : Char} (h : isNumDot c = true) :
    (48 ≤ c.toNat ∧ c.toNat ≤ 57) ∨ c.toNat = 46 := by
  rcases (by simpa [isNumDot, decide_eq_true_eq] using h :
      isDigitC c = true ∨ c = '.') with h2 | rfl
  · exact Or.inl (digit_toNat h2)
  · exact Or.inr rfl

/-! ### Per-position failure of the three pinpoint regexes -/

theorem matchParaAt_none_head {c : Char} {t : List Char}
    (h1 : c ≠ '§') (h2 : toLowerC c ≠ 'p') : matchParaAt (c :: t) = none := by
  unfold matchParaAt
  have hb1 : (charE (fun c => c = '§') (c :: t) fun _ cs =>
      repCls isWsChar 0 none cs fun _ cs =>
      repCls isDigitC 1 none cs fun ds cs =>
      optCls isOrdMark cs fun m _ =>
      some (some (ds ++ m)) : Option (Option (List Char))) = none :=
    charE_cons_none (by simpa using h1)
  rw [hb1]
  exact litCI_cons_noneG (by simpa using h2)

theorem matchParaAt_none_p {c c2 : Char} {t : List Char}
    (h1 : c ≠ '§') (h2 : toLowerC c2 ≠ 'a') : matchParaAt (c :: c2 :: t) = none := by
  unfold matchParaAt
  have hb1 : (charE (fun c => c = '§') (c :: c2 :: t) fun _ cs =>
      repCls isWsChar 0 none cs fun _ cs =>
      repCls isDigitC 1 none cs fun ds cs =>
      optCls isOrdMark cs fun m _ =>
      some (some (ds ++ m)) : Option (Option (List Char))) = none :=
    charE_cons_none (by simpa using h1)
  rw [hb1]
  by_cases hc : toLowerC c = 'p'
  · show litCI ('p' :: 'a' :: ['r']) (c :: c2 :: t) _ = none
    rw [litCI_cons_eq (by rw [hc]; decide)]
    exact litCI_cons_noneG (by intro he; exact h2 (by rw [he]; decide))
  · exact litCI_cons_noneG (by
      intro he; exact hc (by rw [he]; decide))

theorem matchIncisoAt_none_head {c : Char} {t : List Char}
    (h1 : toLowerC c ≠ 'i') (h2 : c ≠ ',') : matchIncisoAt (c :: t) = none := by
  unfold matchIncisoAt
  have hb1 : (litCI "inciso".data (c :: t) fun _ cs =>
      repCls isWsChar 1 none cs fun _ cs =>
      repCls isRomanC 1 none cs fun g _ =>
      some g : Option (List Char)) = none := litCI_cons_noneG (by simpa using h1)
  rw [hb1]
  exact charE_cons_none (by simpa using h2)

theorem matchIncisoAt_none_i {c c2 : Char} {t : List Char}
    (h1 : toLowerC c = 'i') (h2 : toLowerC c2 ≠ 'n') :
    matchIncisoAt (c :: c2 :: t) = none := by
  unfold matchIncisoAt
  have hb1 : (litCI "inciso".data (c :: c2 :: t) fun _ cs =>
      repCls isWsChar 1 none cs fun _ cs =>
      repCls isRomanC 1 none cs fun g _ =>
      some g : Option (List Char)) = none := by
    show litCI ('i' :: "nciso".data) (c :: c2 :: t) _ = none
    rw [litCI_cons_eq (by rw [h1]; decide)]
    exact litCI_cons_noneG (by intro he; exact h2 (by rw [he]; decide))
  rw [hb1]
  refine charE_cons_none ?_
  have hcm : c ≠ ',' := by
    intro he; rw [he] at h1; exact absurd h1 (by decide)
  simpa using hcm

theorem matchAlineaAt_none_head {c : Char} {t : List Char}
    (h1 : toLowerC c ≠ 'a') : matchAlineaAt (c :: t) = none := by
  unfold matchAlineaAt
  exact litCI_cons_noneG (by simpa using h1)

theorem matchAlineaAt_none_a {c c2 : Char} {t : List Char}
    (h2 : toLowerC c2 ≠ 'l') : matchAlineaAt (c :: c2 :: t) = none := by
  unfold matchAlineaAt
  by_cases hc : toLowerC c = 'a'
  · show litCI ('a' :: ['l']) (c :: c2 :: t) _ = none
    rw [litCI_cons_eq (by rw [hc]; decide)]
    exact litCI_cons_noneG (by intro he; exact h2 (by rw [he]; decide))
  · exact litCI_cons_noneG (by
      intro he; exact hc (by rw [he]; decide))

/-- The comma alternative of INCISO_RE fails when the character after the
comma-whitespace is a Roman letter followed by a character that is neither
Roman, whitespace, a comma, nor the end of input. -/
theorem matchIncisoAt_none_comma {x y : Char} {t : List Char}
    (hx : isRomanC x = true) (hxw : isWsChar x = false)
    (hy1 : isRomanC y = false) (hy2 : isWsChar y = false) (hy3 : y ≠ ',') :
    matchIncisoAt (',' :: ' ' :: x :: y :: t) = none := by
  unfold matchIncisoAt
  have hb1 : (litCI "inciso".data (',' :: ' ' :: x :: y :: t) fun _ cs =>
      repCls isWsChar 1 none cs fun _ cs =>
      repCls isRomanC 1 none cs fun g _ =>
      some g : Option (List Char)) = none := litCI_cons_noneG (by decide)
  rw [hb1]
  rw [charE_eval (by decide)]
  refine repCls01_none (by decide) ?_ ?_ ?_
  · intro c hc
    rw [show (x :: y :: t).head? = some x from rfl] at hc
    cases hc
    exact hxw
  · refine repCls1_none hx ?_ ?_
    · intro c hc
      rw [show (y :: t).head? = some y from rfl] at hc
      cases hc
      exact hy1
    · refine repCls00_none (by simp [leadCount, hy2]) ?_
      have hc : (charE (fun c => c = ',') (y :: t) fun _ _ =>
          some [x] : Option (List Char)) = none := charE_cons_none (by simpa using hy3)
      rw [hc]
      simp
  · refine repCls_lo_none ?_
    simp [leadCount, show isRomanC ' ' = false from by decide]

/-- None of the three pinpoint regexes matches at the empty input. -/
theorem pin_none_nil :
    matchParaAt [] = none ∧ matchIncisoAt [] = none ∧ matchAlineaAt [] = none := by
  decide

/-- A position whose head character can start none of the three pinpoint
patterns. -/
theorem pin_none_safe {c : Char} {t : List Char}
    (h1 : c ≠ '§') (h2 : toLowerC c ≠ 'p') (h3 : toLowerC c ≠ 'i') (h4 : c ≠ ',')
    (h5 : toLowerC c ≠ 'a') :
    matchParaAt (c :: t) = none ∧ matchIncisoAt (c :: t) = none ∧
      matchAlineaAt (c :: t) = none :=
  ⟨matchParaAt_none_head h1 h2, matchIncisoAt_none_head h3 h4,
    matchAlineaAt_none_head h5⟩

theorem pin_none_digit {c : Char} {t : List Char} (hd : isDigitC c = true) :
    matchParaAt (c :: t) = none ∧ matchIncisoAt (c :: t) = none ∧
      matchAlineaAt (c :: t) = none := by
  obtain ⟨hl, hu⟩ := digit_toNat hd
  have hself : toLowerC c = c := toLowerC_eq_self_of_range (Or.inl (by omega))
  refine pin_none_safe ?_ ?_ ?_ ?_ ?_
  · intro he; rw [he] at hu; exact absurd hu (by decide)
  · rw [hself]; intro he; rw [he] at hu; exact absurd hu (by decide)
  · rw [hself]; intro he; rw [he] at hu; exact absurd hu (by decide)
  · intro he; rw [he] at hl; exact absurd hl (by decide)
  · rw [hself]; intro he; rw [he] at hu; exact absurd hu (by decide)

theorem pin_none_numDot {c : Char} {t : List Char} (hd : isNumDot c = true) :
    matchParaAt (c :: t) = none ∧ matchIncisoAt (c :: t) = none ∧
      matchAlineaAt (c :: t) = none := by
  rcases numDot_toNat hd with ⟨hl, hu⟩ | h46
  · exact pin_none_digit (by simp [isDigitC]; omega)
  · have hself : toLowerC c = c := toLowerC_eq_self_of_range (Or.inl (by omega))
    refine pin_none_safe ?_ ?_ ?_ ?_ ?_
    · intro he; rw [he] at h46; exact absurd h46 (by decide)
    · rw [hself]; intro he; rw [he] at h46; exact absurd h46 (by decide)
    · rw [hself]; intro he; rw [he] at h46; exact absurd h46 (by decide)
    · intro he; rw [he] at h46; exact absurd h46 (by decide)
    · rw [hself]; intro he; rw [he] at h46; exact absurd h46 (by decide)

/-! ### Suffix scanning -/

theorem scanFirst_none_of {β : Type u} {f : List Char → Option β} :
    ∀ {cs : List Char}, (∀ w, w <:+ cs → f w = none) → scanFirst f cs = none := by
  intro cs
  induction cs with
  | nil =>
    intro h
    exact h [] List.nil_suffix
  | cons c rest ih =>
    intro h
    show (match f (c :: rest) with
      | some r => some r
      | none => scanFirst f rest) = none
    rw [h _ (List.suffix_refl _)]
    exact ih (fun w hw => h w (hw.trans (List.suffix_cons c rest)))

theorem suffix_append_split {w u v : List Char} (h : w <:+ u ++ v) :
    w <:+ v ∨ ∃ w2, w2 <:+ u ∧ w2 ≠ [] ∧ w = w2 ++ v := by
  induction u generalizing w with
  | nil => exact Or.inl (by simpa using h)
  | cons c u2 ih =>
    rw [List.cons_append, List.suffix_cons_iff] at h
    rcases h with rfl | h2
    · exact Or.inr ⟨c :: u2, List.suffix_refl _, by simp, by simp⟩
    · rcases ih h2 with h3 | ⟨w2, hs, hne, rfl⟩
      · exact Or.inl h3
      · exact Or.inr ⟨w2, hs.trans (List.suffix_cons c u2), hne, rfl⟩

/-- Handler for an all-digit run: every suffix position inside it is
pinpoint-safe, so the scan reduces to the tail. -/
theorem pin_suffix_digits {l v : List Char} (hall : l.all isDigitC = true)
    (hv : ∀ w, w <:+ v → matchParaAt w = none ∧ matchIncisoAt w = none ∧
      matchAlineaAt w = none) :
    ∀ w, w <:+ l ++ v → matchParaAt w = none ∧ matchIncisoAt w = none ∧
      matchAlineaAt w = none := by
  intro w hw
  rcases suffix_append_split hw with h | ⟨w2, hs, hne, rfl⟩
  · exact hv w h
  · cases w2 with
    | nil => exact absurd rfl hne
    | cons d w3 =>
      have hd : isDigitC d = true :=
        List.all_eq_true.mp hall d (hs.subset (List.mem_cons_self d w3))
      exact pin_none_digit hd

theorem pin_suffix_numDots {l v : List Char} (hall : l.all isNumDot = true)
    (hv : ∀ w, w <:+ v → matchParaAt w = none ∧ matchIncisoAt w = none ∧
      matchAlineaAt w = none) :
    ∀ w, w <:+ l ++ v → matchParaAt w = none ∧ matchIncisoAt w = none ∧
      matchAlineaAt w = none := by
  intro w hw
  rcases suffix_append_split hw with h | ⟨w2, hs, hne, rfl⟩
  · exact hv w h
  · cases w2 with
    | nil => exact absurd rfl hne
    | cons d w3 =>
      have hd : isNumDot d = true :=
        List.all_eq_true.mp hall d (hs.subset (List.mem_cons_self d w3))
      exact pin_none_numDot hd

/-! ### Unique comma split -/

theorem append_cons_eq_unique {c : Char} :
    ∀ {A B X Y : List Char}, A ++ c :: B = X ++ c :: Y → c ∉ A → c ∉ B →
      A = X ∧ B = Y := by
  intro A
  induction A with
  | nil =>
    intro B X Y h hA hB
    cases X with
    | nil =>
      simp only [List.nil_append, List.cons.injEq, true_and] at h ⊢
      exact h
    | cons x X2 =>
      simp only [List.nil_append, List.cons_append, List.cons.injEq] at h
      obtain ⟨rfl, h2⟩ := h
      exact absurd (by rw [h2]; exact List.mem_append_right _ (List.mem_cons_self ..)) hB
  | cons a A2 ih =>
    intro B X Y h hA hB
    cases X with
    | nil =>
      simp only [List.cons_append, List.nil_append, List.cons.injEq] at h
      obtain ⟨rfl, h2⟩ := h
      exact absurd (List.mem_cons_self ..) hA
    | cons x X2 =>
      simp only [List.cons_append, List.cons.injEq] at h
      obtain ⟨rfl, h2⟩ := h
      obtain ⟨h3, h4⟩ := ih h2 (fun hm => hA (List.mem_cons_of_mem _ hm)) hB
      exact ⟨by rw [h3], h4⟩

/-! ### Latin-1 inertness of the NFD model below U+00C0 -/

theorem nfdChar_lt192 {c : Char} (h : c.toNat < 192) :
    nfdChar c = [c] ∧ isCombining c = false := by
  constructor
  · unfold nfdChar
    have hf : NFD_TABLE.find? (fun p => p.1 == c) = none := by
      rw [List.find?_eq_none]
      intro p hp
      have h192 : ∀ q ∈ NFD_TABLE, 192 ≤ q.1.toNat := by decide
      simp only [beq_iff_eq]
      intro he
      have := h192 p hp
      rw [he] at this
      omega
    rw [hf]
  · simp only [isCombining, decide_eq_false_iff_not]
    omega

/-! ### Forward evaluation of SHORT_CITATION on a formatter-shaped input -/

/-- After a law-type keyword, `\s+(?:n[ºo.]?\s*)?\d` fails when the single
whitespace is followed by a letter that starts neither the `n` group nor a
digit: the `lei` branch of the alternation cannot absorb the prefix of
`lei complementar`. -/
theorem afterType_none_of_letter {α : Type u} {w c : Char} {t : List Char}
    {k2 : List Char → List Char → Option α}
    (hw : isWsChar w = true) (hc : isWsChar c = false) (hcn : toLowerC c ≠ 'n')
    (hcd : isDigitC c = false) :
    repCls isWsChar 1 none (w :: c :: t)
      (fun _ cs => optM nGroup cs fun _ cs => charE isDigitC cs k2) = none := by
  refine repCls1_none hw ?_ ?_
  · intro d hd
    rw [show (c :: t).head? = some c from rfl] at hd
    cases hd
    exact hc
  · refine optM_none (nGroup_cons_none hcn) (charE_cons_none hcd)

/-- Tail of SHORT_CITATION after the law-type keyword, evaluated on
`" nº " ++ N ++ "/" ++ Y` with `N` a digit-led number and `Y` at least four
digits: captures `N` and the first four digits of `Y`. -/
theorem shortAfter_eval (G1 G2 : List Char) {n0 : Char} {N2 Y : List Char}
    (hn0 : isDigitC n0 = true) (hN2 : N2.all isNumDot = true)
    (hY : Y.all isDigitC = true) (hY4 : 4 ≤ Y.length) :
    repCls isWsChar 1 none (' ' :: 'n' :: 'º' :: ' ' :: (n0 :: N2 ++ '/' :: Y))
      (fun _ cs => optM nGroup cs fun _ cs =>
       charE isDigitC cs fun d0 cs =>
       repCls isNumDot 0 none cs fun ds cs =>
       repCls isWsChar 0 none cs fun _ cs =>
       charE (fun c => c = '/') cs fun _ cs =>
       repCls isWsChar 0 none cs fun _ cs =>
       repCls isDigitC 4 (some 4) cs fun g4 _ =>
       some (⟨G1, G2, d0 ++ ds, g4⟩ : ShortCaps))
    = some ⟨G1, G2, n0 :: N2, Y.take 4⟩ := by
  refine repCls_evalInfS _ _ [' '] _ _ (by decide)
    (by intro d hd; cases hd; decide) (by decide) ?_
  refine optM_hit ?_
  unfold nGroup
  refine litCI_evalS _ ['n'] _ _ (by decide) ?_
  refine optCls_hit (by decide) ?_
  refine repCls_evalInfS _ _ [' '] _ _ (by decide)
    (by intro d hd; cases hd; exact digit_not_ws hn0) (by decide) ?_
  refine charE_evalS _ n0 _ _ hn0 ?_
  refine repCls_evalInfS _ _ N2 _ _ hN2
    (by intro d hd; cases hd; decide) (by omega) ?_
  refine repCls_evalInfS _ _ [] _ _ (by decide)
    (by intro d hd; cases hd; decide) (by decide) ?_
  refine charE_evalS _ '/' _ _ (by decide) ?_
  refine repCls_evalInfS _ _ [] _ _ (by decide)
    (by intro d hd; exact digit_not_ws (List.all_eq_true.mp hY d
      (head?_mem_of_eq hd))) (by decide) ?_
  have hmin : min 4 (leadCount isDigitC Y) = 4 := by
    rw [leadCount_all hY]; omega
  refine repCls_evalBound (by rw [hmin]) ?_
  rw [hmin]
  rfl

/-- The law-type alternation matched against a formatter label followed by
the SHORT tail: `lei complementar` is not truncated to `lei` because the
continuation rejects the leftover letters, `medida provisória`-with-`o`
matches through the middle branch. -/
theorem typeAlt_short {L T : List Char} {G1 : List Char} {r : ShortCaps}
    (hL : L = "Lei".data ∨ L = "Lei Complementar".data ∨
      L = "Medida Provisoria".data ∨ L = "Decreto".data)
    (hk : (fun g2 cs =>
        repCls isWsChar 1 none cs fun _ cs =>
        optM nGroup cs fun _ cs =>
        charE isDigitC cs fun d0 cs =>
        repCls isNumDot 0 none cs fun ds cs =>
        repCls isWsChar 0 none cs fun _ cs =>
        charE (fun c => c = '/') cs fun _ cs =>
        repCls isWsChar 0 none cs fun _ cs =>
        repCls isDigitC 4 (some 4) cs fun g4 _ =>
        some (⟨G1, g2, d0 ++ ds, g4⟩ : ShortCaps)) L T = some r) :
    typeAlt (L ++ T) (fun g2 cs =>
        repCls isWsChar 1 none cs fun _ cs =>
        optM nGroup cs fun _ cs =>
        charE isDigitC cs fun d0 cs =>
        repCls isNumDot 0 none cs fun ds cs =>
        repCls isWsChar 0 none cs fun _ cs =>
        charE (fun c => c = '/') cs fun _ cs =>
        repCls isWsChar 0 none cs fun _ cs =>
        repCls isDigitC 4 (some 4) cs fun g4 _ =>
        some (⟨G1, g2, d0 ++ ds, g4⟩ : ShortCaps)) = some r := by
  rcases hL with rfl | rfl | rfl | rfl
  · exact typeAlt_eval1 (litCI_evalS _ "Lei".data T _ (by decide) hk)
  · refine typeAlt_eval2 ?_ (litCI_evalS _ "Lei Complementar".data T _ (by decide) hk)
    show litCI "lei".data ("Lei".data ++ (' ' :: 'C' :: ("omplementar".data ++ T))) _ = none
    rw [litCI_eval (by decide)]
    exact afterType_none_of_letter (by decide) (by decide) (by decide) (by decide)
  · refine typeAlt_eval3 (litCI_cons_noneG (by decide)) (litCI_cons_noneG (by decide)) ?_
    unfold medidaLit
    refine litCI_evalS _ "Medida Provis".data ('o' :: ("ria".data ++ T)) _ (by decide) ?_
    refine charE_evalS _ 'o' _ _ (by decide) ?_
    refine litCI_evalS _ "ria".data T _ (by decide) ?_
    exact hk
  · refine typeAlt_eval4 (litCI_cons_noneG (by decide)) (litCI_cons_noneG (by decide))
      ?_ (litCI_evalS _ "Decreto".data T _ (by decide) hk)
    unfold medidaLit
    exact litCI_cons_noneG (by decide)

/-- SHORT_CITATION matches the string produced by the formatter's full
style, capturing the article-with-ordinal, the label, the grouped number
and the first four digits of the year. -/
theorem matchSHORT_formatted {a L N2 Y : List Char} {n0 : Char}
    (hL : L = "Lei".data ∨ L = "Lei Complementar".data ∨
      L = "Medida Provisoria".data ∨ L = "Decreto".data)
    (ha1 : a ≠ []) (ha2 : a.all isDigitC = true)
    (hn0 : isDigitC n0 = true) (hN2 : N2.all isNumDot = true)
    (hY : Y.all isDigitC = true) (hY4 : 4 ≤ Y.length) :
    matchSHORT ('A' :: 'r' :: 't' :: '.' :: ' ' ::
        (a ++ 'º' :: ',' :: ' ' ::
          (L ++ ' ' :: 'n' :: 'º' :: ' ' :: (n0 :: N2 ++ '/' :: Y))))
      = some ⟨a ++ ['º'], L, n0 :: N2, Y.take 4⟩ := by
  unfold matchSHORT reArtNum
  refine litCI_evalS _ ['A', 'r', 't'] _ _ (by decide) ?_
  refine optCls_hit (by decide) ?_
  refine repCls_evalInfS _ _ [' '] _ _ (by decide) ?_ (by decide) ?_
  · intro d hd
    cases a with
    | nil => exact absurd rfl ha1
    | cons a0 a2 =>
      have hd2 : some a0 = some d := hd
      cases hd2
      exact digit_not_ws (List.all_eq_true.mp ha2 _ (List.mem_cons_self ..))
  refine repCls_evalInfS _ _ a _ _ ha2
    (by intro d hd; cases hd; decide) (List.length_pos.mpr ha1) ?_
  refine optCls_hit (by decide) ?_
  refine repCls_evalInfS _ _ [] _ _ (by decide)
    (by intro d hd; cases hd; decide) (by decide) ?_
  refine optCls_hit (by decide) ?_
  refine repCls_evalInfS _ _ [' '] _ _ (by decide) ?_ (by decide) ?_
  · intro d hd
    rcases hL with rfl | rfl | rfl | rfl
    · have hd2 : some 'L' = some d := hd
      cases hd2; decide
    · have hd2 : some 'L' = some d := hd
      cases hd2; decide
    · have hd2 : some 'M' = some d := hd
      cases hd2; decide
    · have hd2 : some 'D' = some d := hd
      cases hd2; decide
  refine typeAlt_short hL ?_
  exact shortAfter_eval (a ++ ['º']) L hn0 hN2 hY hY4

/-! ### FULL_CITATION forces a comma followed by a `de <day>` date -/

/-- Inversion of FULL_CITATION: any successful match splits the input at a
mandatory comma that is followed by optional whitespace, a
case-insensitive `de`, and at least one whitespace character. -/
theorem matchFULL_comma_de {cs : List Char} {caps : FullCaps}
    (h : matchFULL cs = some caps) :
    ∃ A w1 x y z B, cs = A ++ ',' :: (w1 ++ x :: y :: z :: B) ∧
      w1.all isWsChar = true ∧ toLowerC x = 'd' ∧ toLowerC y = 'e' ∧
      isWsChar z = true := by
  unfold matchFULL at h
  obtain ⟨con0, g1, cs0, he0, h⟩ := reArtNum_someSplit h
  obtain ⟨n1, _, _, _, h⟩ := repCls_some h
  obtain ⟨c2, cs2, he2, _, h⟩ := optCls_some h
  obtain ⟨n3, _, _, _, h⟩ := repCls_some h
  obtain ⟨g2, cs4, he4, h⟩ := typeAlt_someSplit h
  obtain ⟨n5, _, _, _, h⟩ := repCls_some h
  obtain ⟨c6, cs6, he6, h⟩ := optM_nGroup_someSplit h
  obtain ⟨d0, cs7, he7, _, h⟩ := charE_some h
  obtain ⟨n8, _, _, _, h⟩ := repCls_some h
  obtain ⟨n9, _, _, _, h⟩ := repCls_some h
  obtain ⟨xc, cs10, he10, hxc, h⟩ := charE_some h
  have hxc2 : xc = ',' := by simpa using hxc
  obtain ⟨n11, _, hn11le, _, h⟩ := repCls_some h
  obtain ⟨de2, cs12, he12, hde, h⟩ := litCI_some h
  obtain ⟨n13, hn13lo, hn13le, _, h⟩ := repCls_some h
  have hde2 : toLowerL de2 = ['d', 'e'] := by
    rw [hde]; decide
  have hlen2 : de2.length = 2 := by
    have := congrArg List.length hde2
    simpa [toLowerL] using this
  obtain ⟨x, y, rfl⟩ : ∃ x y, de2 = [x, y] := by
    cases de2 with
    | nil => simp at hlen2
    | cons x t1 =>
      cases t1 with
      | nil => simp at hlen2
      | cons y t2 =>
        cases t2 with
        | nil => exact ⟨x, y, rfl⟩
        | cons z t3 => simp at hlen2
  have hx : toLowerC x = 'd' := by
    simpa [toLowerL] using congrArg (fun l => l.head?) hde2
  have hy : toLowerC y = 'e' := by
    have := congrArg (fun l => l.getLast?) hde2
    simpa [toLowerL] using this
  have hw2all : (cs12.take n13).all isWsChar = true := take_all_of_le_leadCount hn13le
  have hw2ne : cs12.take n13 ≠ [] := by
    have hlc : leadCount isWsChar cs12 ≤ cs12.length := leadCount_le_length _ _
    intro hnil
    have := congrArg List.length hnil
    simp only [List.length_take, List.length_nil] at this
    omega
  obtain ⟨z, w2t, hw2⟩ : ∃ z w2t, cs12.take n13 = z :: w2t := by
    cases hq : cs12.take n13 with
    | nil => exact absurd hq hw2ne
    | cons z w2t => exact ⟨z, w2t, rfl⟩
  have hz : isWsChar z = true := by
    rw [hw2] at hw2all
    simp only [List.all_cons, Bool.and_eq_true] at hw2all
    exact hw2all.1
  refine ⟨con0 ++ cs0.take n1 ++ c2 ++ cs2.take n3 ++ g2 ++ cs4.take n5 ++ c6
      ++ [d0] ++ cs7.take n8 ++ ((cs7.drop n8).take n9),
    cs10.take n11, x, y, z, w2t ++ cs12.drop n13, ?_,
    take_all_of_le_leadCount hn11le, hx, hy, hz⟩
  have e1 : cs0 = cs0.take n1 ++ cs0.drop n1 := (List.take_append_drop n1 cs0).symm
  have e3 : cs2 = cs2.take n3 ++ cs2.drop n3 := (List.take_append_drop n3 cs2).symm
  have e5 : cs4 = cs4.take n5 ++ cs4.drop n5 := (List.take_append_drop n5 cs4).symm
  have e8 : cs7 = cs7.take n8 ++ cs7.drop n8 := (List.take_append_drop n8 cs7).symm
  have e9 : cs7.drop n8 = (cs7.drop n8).take n9 ++ (cs7.drop n8).drop n9 :=
    (List.take_append_drop n9 (cs7.drop n8)).symm
  have e11 : cs10 = cs10.take n11 ++ cs10.drop n11 :=
    (List.take_append_drop n11 cs10).symm
  have e13 : cs12 = cs12.take n13 ++ cs12.drop n13 :=
    (List.take_append_drop n13 cs12).symm
  rw [he0]
  conv_lhs => rw [e1, he2, e3, he4, e5, he6, he7, e8, e9, he10, hxc2, e11, he12,
    e13, hw2]
  simp [List.append_assoc]

/-- FULL_CITATION does not match the formatter's full style output: the
slash form has a single comma, and what follows it is the law-type label,
never the `de <day>` of a promulgation date. -/
theorem matchFULL_formatted_none {a L N2 Y : List Char} {n0 : Char}
    (hL : L = "Lei".data ∨ L = "Lei Complementar".data ∨
      L = "Medida Provisoria".data ∨ L = "Decreto".data)
    (ha2 : a.all isDigitC = true)
    (hn0 : isDigitC n0 = true) (hN2 : N2.all isNumDot = true)
    (hY : Y.all isDigitC = true) :
    matchFULL ('A' :: 'r' :: 't' :: '.' :: ' ' ::
        (a ++ 'º' :: ',' :: ' ' ::
          (L ++ ' ' :: 'n' :: 'º' :: ' ' :: (n0 :: N2 ++ '/' :: Y))))
      = none := by
  cases hm : matchFULL ('A' :: 'r' :: 't' :: '.' :: ' ' ::
      (a ++ 'º' :: ',' :: ' ' ::
        (L ++ ' ' :: 'n' :: 'º' :: ' ' :: (n0 :: N2 ++ '/' :: Y)))) with
  | none => rfl
  | some caps =>
    exfalso
    obtain ⟨A, w1, x, y, z, B, heq, hw1, hx, hy, hz⟩ := matchFULL_comma_de hm
    have hnA : ',' ∉ (('A' :: 'r' :: 't' :: '.' :: ' ' :: (a ++ ['º'])) : List Char) := by
      intro hm2
      rcases List.mem_cons.mp hm2 with h | hm2; · exact absurd h (by decide)
      rcases List.mem_cons.mp hm2 with h | hm2; · exact absurd h (by decide)
      rcases List.mem_cons.mp hm2 with h | hm2; · exact absurd h (by decide)
      rcases List.mem_cons.mp hm2 with h | hm2; · exact absurd h (by decide)
      rcases List.mem_cons.mp hm2 with h | hm2; · exact absurd h (by decide)
      rcases List.mem_append.mp hm2 with hm3 | hm3
      · exact absurd (List.all_eq_true.mp ha2 _ hm3) (by decide)
      · exact absurd (List.mem_singleton.mp hm3) (by decide)
    have hnB : ',' ∉ ((' ' ::
        (L ++ ' ' :: 'n' :: 'º' :: ' ' :: (n0 :: N2 ++ '/' :: Y))) : List Char) := by
      intro hm2
      rcases List.mem_cons.mp hm2 with h | hm2; · exact absurd h (by decide)
      rcases List.mem_append.mp hm2 with hm3 | hm3
      · rcases hL with rfl | rfl | rfl | rfl <;> exact absurd hm3 (by decide)
      · rcases List.mem_cons.mp hm3 with h | hm3; · exact absurd h (by decide)
        rcases List.mem_cons.mp hm3 with h | hm3; · exact absurd h (by decide)
        rcases List.mem_cons.mp hm3 with h | hm3; · exact absurd h (by decide)
        rcases List.mem_cons.mp hm3 with h | hm3; · exact absurd h (by decide)
        rcases List.mem_cons.mp hm3 with h | hm3
        · rw [← h] at hn0; exact absurd hn0 (by decide)
        rcases List.mem_append.mp hm3 with hm4 | hm4
        · exact absurd (List.all_eq_true.mp hN2 _ hm4) (by decide)
        · rcases List.mem_cons.mp hm4 with h | hm4; · exact absurd h (by decide)
          exact absurd (List.all_eq_true.mp hY _ hm4) (by decide)
    have hsplit : (('A' :: 'r' :: 't' :: '.' :: ' ' :: (a ++ ['º'])) : List Char)
        ++ ',' :: (' ' ::
          (L ++ ' ' :: 'n' :: 'º' :: ' ' :: (n0 :: N2 ++ '/' :: Y)))
        = A ++ ',' :: (w1 ++ x :: y :: z :: B) := by
      refine Eq.trans ?_ heq
      simp [List.append_assoc]
    obtain ⟨-, hQ⟩ := append_cons_eq_unique hsplit hnA hnB
    cases w1 with
    | nil =>
      simp only [List.nil_append, List.cons.injEq] at hQ
      obtain ⟨h1, -⟩ := hQ
      rw [← h1] at hx
      exact absurd hx (by decide)
    | cons w0 w1t =>
      simp only [List.cons_append, List.cons.injEq] at hQ
      obtain ⟨-, hQ2⟩ := hQ
      cases w1t with
      | cons w5 w6 =>
        have h5 : isWsChar w5 = true := by
          simp only [List.all_cons, Bool.and_eq_true] at hw1
          exact hw1.2.1
        rcases hL with rfl | rfl | rfl | rfl
        · have h6 : some 'L' = some w5 := congrArg List.head? hQ2
          cases h6; exact absurd h5 (by decide)
        · have h6 : some 'L' = some w5 := congrArg List.head? hQ2
          cases h6; exact absurd h5 (by decide)
        · have h6 : some 'M' = some w5 := congrArg List.head? hQ2
          cases h6; exact absurd h5 (by decide)
        · have h6 : some 'D' = some w5 := congrArg List.head? hQ2
          cases h6; exact absurd h5 (by decide)
      | nil =>
        simp only [List.nil_append] at hQ2
        rcases hL with rfl | rfl | rfl | rfl
        · have h5 : some 'L' = some x := congrArg List.head? hQ2
          cases h5
          exact absurd hx (by decide)
        · have h5 : some 'L' = some x := congrArg List.head? hQ2
          cases h5
          exact absurd hx (by decide)
        · have h5 : some 'M' = some x := congrArg List.head? hQ2
          cases h5
          exact absurd hx (by decide)
        · have hQ3 : (('D' :: 'e' :: 'c' :: ("reto".data ++
              ' ' :: 'n' :: 'º' :: ' ' :: (n0 :: N2 ++ '/' :: Y))) : List Char)
              = x :: y :: z :: B := hQ2
          simp only [List.cons.injEq] at hQ3
          obtain ⟨-, -, h7, -⟩ := hQ3
          rw [← h7] at hz
          exact absurd hz (by decide)

/-! ### No pinpoint pattern occurs anywhere in the formatted string -/

/-- Every suffix position of the formatter's full-style output fails all
three pinpoint regexes: the string has no `§`/`parágrafo`, no `inciso` or
comma-delimited Roman numeral, and no `alínea`. -/
theorem pins_formatted {a L N2 Y : List Char} {n0 : Char}
    (hL : L = "Lei".data ∨ L = "Lei Complementar".data ∨
      L = "Medida Provisoria".data ∨ L = "Decreto".data)
    (ha2 : a.all isDigitC = true)
    (hn0 : isDigitC n0 = true) (hN2 : N2.all isNumDot = true)
    (hY : Y.all isDigitC = true) :
    ∀ w, w <:+ ('A' :: 'r' :: 't' :: '.' :: ' ' ::
        (a ++ 'º' :: ',' :: ' ' ::
          (L ++ ' ' :: 'n' :: 'º' :: ' ' :: (n0 :: N2 ++ '/' :: Y)))) →
      matchParaAt w = none ∧ matchIncisoAt w = none ∧ matchAlineaAt w = none := by
  have h0 : ∀ w, w <:+ Y →
      matchParaAt w = none ∧ matchIncisoAt w = none ∧ matchAlineaAt w = none := by
    intro w hw
    cases w with
    | nil => exact pin_none_nil
    | cons d w2 =>
      exact pin_none_digit (List.all_eq_true.mp hY _ (hw.subset (List.mem_cons_self ..)))
  have h1 : ∀ w, w <:+ '/' :: Y →
      matchParaAt w = none ∧ matchIncisoAt w = none ∧ matchAlineaAt w = none := by
    intro w hw
    rcases List.suffix_cons_iff.mp hw with rfl | hw2
    · exact pin_none_safe (by decide) (by decide) (by decide) (by decide) (by decide)
    · exact h0 w hw2
  have h2 : ∀ w, w <:+ N2 ++ '/' :: Y →
      matchParaAt w = none ∧ matchIncisoAt w = none ∧ matchAlineaAt w = none :=
    pin_suffix_numDots hN2 h1
  have h2b : ∀ w, w <:+ n0 :: (N2 ++ '/' :: Y) →
      matchParaAt w = none ∧ matchIncisoAt w = none ∧ matchAlineaAt w = none := by
    intro w hw
    rcases List.suffix_cons_iff.mp hw with rfl | hw2
    · exact pin_none_digit hn0
    · exact h2 w hw2
  have h3 : ∀ w, w <:+ ' ' :: 'n' :: 'º' :: ' ' :: (n0 :: N2 ++ '/' :: Y) →
      matchParaAt w = none ∧ matchIncisoAt w = none ∧ matchAlineaAt w = none := by
    intro w hw
    rcases List.suffix_cons_iff.mp hw with rfl | hw
    · exact pin_none_safe (by decide) (by decide) (by decide) (by decide) (by decide)
    rcases List.suffix_cons_iff.mp hw with rfl | hw
    · exact pin_none_safe (by decide) (by decide) (by decide) (by decide) (by decide)
    rcases List.suffix_cons_iff.mp hw with rfl | hw
    · exact pin_none_safe (by decide) (by decide) (by decide) (by decide) (by decide)
    rcases List.suffix_cons_iff.mp hw with rfl | hw
    · exact pin_none_safe (by decide) (by decide) (by decide) (by decide) (by decide)
    exact h2b w hw
  have h4 : ∀ w, w <:+ L ++ ' ' :: 'n' :: 'º' :: ' ' :: (n0 :: N2 ++ '/' :: Y) →
      matchParaAt w = none ∧ matchIncisoAt w = none ∧ matchAlineaAt w = none := by
    rcases hL with rfl | rfl | rfl | rfl
    · intro w hw
      have hw2 : w <:+ ('L' :: 'e' :: 'i' ::
          (' ' :: 'n' :: 'º' :: ' ' :: (n0 :: N2 ++ '/' :: Y))) := hw
      rcases List.suffix_cons_iff.mp hw2 with rfl | hw2
      · exact pin_none_safe (by decide) (by decide) (by decide) (by decide) (by decide)
      rcases List.suffix_cons_iff.mp hw2 with rfl | hw2
      · exact pin_none_safe (by decide) (by decide) (by decide) (by decide) (by decide)
      rcases List.suffix_cons_iff.mp hw2 with rfl | hw2
      · exact ⟨matchParaAt_none_head (by decide) (by decide),
          matchIncisoAt_none_i (by decide) (by decide),
          matchAlineaAt_none_head (by decide)⟩
      exact h3 w hw2
    · intro w hw
      have hw2 : w <:+ ('L' :: 'e' :: 'i' :: ' ' :: 'C' :: 'o' :: 'm' :: 'p' ::
          'l' :: 'e' :: 'm' :: 'e' :: 'n' :: 't' :: 'a' :: 'r' ::
          (' ' :: 'n' :: 'º' :: ' ' :: (n0 :: N2 ++ '/' :: Y))) := hw
      rcases List.suffix_cons_iff.mp hw2 with rfl | hw2
      · exact pin_none_safe (by decide) (by decide) (by decide) (by decide) (by decide)
      rcases List.suffix_cons_iff.mp hw2 with rfl | hw2
      · exact pin_none_safe (by decide) (by decide) (by decide) (by decide) (by decide)
      rcases List.suffix_cons_iff.mp hw2 with rfl | hw2
      · exact ⟨matchParaAt_none_head (by decide) (by decide),
          matchIncisoAt_none_i (by decide) (by decide),
          matchAlineaAt_none_head (by decide)⟩
      rcases List.suffix_cons_iff.mp hw2 with rfl | hw2
      · exact pin_none_safe (by decide) (by decide) (by decide) (by decide) (by decide)
      rcases List.suffix_cons_iff.mp hw2 with rfl | hw2
      · exact pin_none_safe (by decide) (by decide) (by decide) (by decide) (by decide)
      rcases List.suffix_cons_iff.mp hw2 with rfl | hw2
      · exact pin_none_safe (by decide) (by decide) (by decide) (by decide) (by decide)
      rcases List.suffix_cons_iff.mp hw2 with rfl | hw2
      · exact pin_none_safe (by decide) (by decide) (by decide) (by decide) (by decide)
      rcases List.suffix_cons_iff.mp hw2 with rfl | hw2
      · exact ⟨matchParaAt_none_p (by decide) (by decide),
          matchIncisoAt_none_head (by decide) (by decide),
          matchAlineaAt_none_head (by decide)⟩
      rcases List.suffix_cons_iff.mp hw2 with rfl | hw2
      · exact pin_none_safe (by decide) (by decide) (by decide) (by decide) (by decide)
      rcases List.suffix_cons_iff.mp hw2 with rfl | hw2
      · exact pin_none_safe (by decide) (by decide) (by decide) (by decide) (by decide)
      rcases List.suffix_cons_iff.mp hw2 with rfl | hw2
      · exact pin_none_safe (by decide) (by decide) (by decide) (by decide) (by decide)
      rcases List.suffix_cons_iff.mp hw2 with rfl | hw2
      · exact pin_none_safe (by decide) (by decide) (by decide) (by decide) (by decide)
      rcases List.suffix_cons_iff.mp hw2 with rfl | hw2
      · exact pin_none_safe (by decide) (by decide) (by decide) (by decide) (by decide)
      rcases List.suffix_cons_iff.mp hw2 with rfl | hw2
      · exact pin_none_safe (by decide) (by decide) (by decide) (by decide) (by decide)
      rcases List.suffix_cons_iff.mp hw2 with rfl | hw2
      · exact ⟨matchParaAt_none_head (by decide) (by decide),
          matchIncisoAt_none_head (by decide) (by decide),
          matchAlineaAt_none_a (by decide)⟩
      rcases List.suffix_cons_iff.mp hw2 with rfl | hw2
      · exact pin_none_safe (by decide) (by decide) (by decide) (by decide) (by decide)
      exact h3 w hw2
    · intro w hw
      have hw2 : w <:+ ('M' :: 'e' :: 'd' :: 'i' :: 'd' :: 'a' :: ' ' :: 'P' ::
          'r' :: 'o' :: 'v' :: 'i' :: 's' :: 'o' :: 'r' :: 'i' :: 'a' ::
          (' ' :: 'n' :: 'º' :: ' ' :: (n0 :: N2 ++ '/' :: Y))) := hw
      rcases List.suffix_cons_iff.mp hw2 with rfl | hw2
      · exact pin_none_safe (by decide) (by decide) (by decide) (by decide) (by decide)
      rcases List.suffix_cons_iff.mp hw2 with rfl | hw2
      · exact pin_none_safe (by decide) (by decide) (by decide) (by decide) (by decide)
      rcases List.suffix_cons_iff.mp hw2 with rfl | hw2
      · exact pin_none_safe (by decide) (by decide) (by decide) (by decide) (by decide)
      rcases List.suffix_cons_iff.mp hw2 with rfl | hw2
      · exact ⟨matchParaAt_none_head (by decide) (by decide),
          matchIncisoAt_none_i (by decide) (by decide),
          matchAlineaAt_none_head (by decide)⟩
      rcases List.suffix_cons_iff.mp hw2 with rfl | hw2
      · exact pin_none_safe (by decide) (by decide) (by decide) (by decide) (by decide)
      rcases List.suffix_cons_iff.mp hw2 with rfl | hw2
      · exact ⟨matchParaAt_none_head (by decide) (by decide),
          matchIncisoAt_none_head (by decide) (by decide),
          matchAlineaAt_none_a (by decide)⟩
      rcases List.suffix_cons_iff.mp hw2 with rfl | hw2
      · exact pin_none_safe (by decide) (by decide) (by decide) (by decide) (by decide)
      rcases List.suffix_cons_iff.mp hw2 with rfl | hw2
      · exact ⟨matchParaAt_none_p (by decide) (by decide),
          matchIncisoAt_none_head (by decide) (by decide),
          matchAlineaAt_none_head (by decide)⟩
      rcases List.suffix_cons_iff.mp hw2 with rfl | hw2
      · exact pin_none_safe (by decide) (by decide) (by decide) (by decide) (by decide)
      rcases List.suffix_cons_iff.mp hw2 with rfl | hw2
      · exact pin_none_safe (by decide) (by decide) (by decide) (by decide) (by decide)
      rcases List.suffix_cons_iff.mp hw2 with rfl | hw2
      · exact pin_none_safe (by decide) (by decide) (by decide) (by decide) (by decide)
      rcases List.suffix_cons_iff.mp hw2 with rfl | hw2
      · exact ⟨matchParaAt_none_head (by decide) (by decide),
          matchIncisoAt_none_i (by decide) (by decide),
          matchAlineaAt_none_head (by decide)⟩
      rcases List.suffix_cons_iff.mp hw2 with rfl | hw2
      · exact pin_none_safe (by decide) (by decide) (by decide) (by decide) (by decide)
      rcases List.suffix_cons_iff.mp hw2 with rfl | hw2
      · exact pin_none_safe (by decide) (by decide) (by decide) (by decide) (by decide)
      rcases List.suffix_cons_iff.mp hw2 with rfl | hw2
      · exact pin_none_safe (by decide) (by decide) (by decide) (by decide) (by decide)
      rcases List.suffix_cons_iff.mp hw2 with rfl | hw2
      · exact ⟨matchParaAt_none_head (by decide) (by decide),
          matchIncisoAt_none_i (by decide) (by decide),
          matchAlineaAt_none_head (by decide)⟩
      rcases List.suffix_cons_iff.mp hw2 with rfl | hw2
      · exact ⟨matchParaAt_none_head (by decide) (by decide),
          matchIncisoAt_none_head (by decide) (by decide),
          matchAlineaAt_none_a (by decide)⟩
      exact h3 w hw2
    · intro w hw
      have hw2 : w <:+ ('D' :: 'e' :: 'c' :: 'r' :: 'e' :: 't' :: 'o' ::
          (' ' :: 'n' :: 'º' :: ' ' :: (n0 :: N2 ++ '/' :: Y))) := hw
      rcases List.suffix_cons_iff.mp hw2 with rfl | hw2
      · exact pin_none_safe (by decide) (by decide) (by decide) (by decide) (by decide)
      rcases List.suffix_cons_iff.mp hw2 with rfl | hw2
      · exact pin_none_safe (by decide) (by decide) (by decide) (by decide) (by decide)
      rcases List.suffix_cons_iff.mp hw2 with rfl | hw2
      · exact pin_none_safe (by decide) (by decide) (by decide) (by decide) (by decide)
      rcases List.suffix_cons_iff.mp hw2 with rfl | hw2
      · exact pin_none_safe (by decide) (by decide) (by decide) (by decide) (by decide)
      rcases List.suffix_cons_iff.mp hw2 with rfl | hw2
      · exact pin_none_safe (by decide) (by decide) (by decide) (by decide) (by decide)
      rcases List.suffix_cons_iff.mp hw2 with rfl | hw2
      · exact pin_none_safe (by decide) (by decide) (by decide) (by decide) (by decide)
      rcases List.suffix_cons_iff.mp hw2 with rfl | hw2
      · exact pin_none_safe (by decide) (by decide) (by decide) (by decide) (by decide)
      exact h3 w hw2
  have h5 : ∀ w, w <:+ ' ' :: (L ++ ' ' :: 'n' :: 'º' :: ' ' :: (n0 :: N2 ++ '/' :: Y)) →
      matchParaAt w = none ∧ matchIncisoAt w = none ∧ matchAlineaAt w = none := by
    intro w hw
    rcases List.suffix_cons_iff.mp hw with rfl | hw2
    · exact pin_none_safe (by decide) (by decide) (by decide) (by decide) (by decide)
    · exact h4 w hw2
  have h6 : ∀ w, w <:+ ',' :: ' ' ::
      (L ++ ' ' :: 'n' :: 'º' :: ' ' :: (n0 :: N2 ++ '/' :: Y)) →
      matchParaAt w = none ∧ matchIncisoAt w = none ∧ matchAlineaAt w = none := by
    intro w hw
    rcases List.suffix_cons_iff.mp hw with rfl | hw2
    · refine ⟨matchParaAt_none_head (by decide) (by decide), ?_,
        matchAlineaAt_none_head (by decide)⟩
      rcases hL with rfl | rfl | rfl | rfl
      · exact matchIncisoAt_none_comma (by decide) (by decide) (by decide)
          (by decide) (by decide)
      · exact matchIncisoAt_none_comma (by decide) (by decide) (by decide)
          (by decide) (by decide)
      · exact matchIncisoAt_none_comma (by decide) (by decide) (by decide)
          (by decide) (by decide)
      · exact matchIncisoAt_none_comma (by decide) (by decide) (by decide)
          (by decide) (by decide)
    · exact h5 w hw2
  have h7 : ∀ w, w <:+ 'º' :: ',' :: ' ' ::
      (L ++ ' ' :: 'n' :: 'º' :: ' ' :: (n0 :: N2 ++ '/' :: Y)) →
      matchParaAt w = none ∧ matchIncisoAt w = none ∧ matchAlineaAt w = none := by
    intro w hw
    rcases List.suffix_cons_iff.mp hw with rfl | hw2
    · exact pin_none_safe (by decide) (by decide) (by decide) (by decide) (by decide)
    · exact h6 w hw2
  have h8 : ∀ w, w <:+ a ++ 'º' :: ',' :: ' ' ::
      (L ++ ' ' :: 'n' :: 'º' :: ' ' :: (n0 :: N2 ++ '/' :: Y)) →
      matchParaAt w = none ∧ matchIncisoAt w = none ∧ matchAlineaAt w = none :=
    pin_suffix_digits ha2 h7
  intro w hw
  rcases List.suffix_cons_iff.mp hw with rfl | hw
  · exact ⟨matchParaAt_none_head (by decide) (by decide),
      matchIncisoAt_none_head (by decide) (by decide),
      matchAlineaAt_none_a (by decide)⟩
  rcases List.suffix_cons_iff.mp hw with rfl | hw
  · exact pin_none_safe (by decide) (by decide) (by decide) (by decide) (by decide)
  rcases List.suffix_cons_iff.mp hw with rfl | hw
  · exact pin_none_safe (by decide) (by decide) (by decide) (by decide) (by decide)
  rcases List.suffix_cons_iff.mp hw with rfl | hw
  · exact pin_none_safe (by decide) (by decide) (by decide) (by decide) (by decide)
  rcases List.suffix_cons_iff.mp hw with rfl | hw
  · exact pin_none_safe (by decide) (by decide) (by decide) (by decide) (by decide)
  exact h8 w hw

/-- Pinpoint extraction on the formatter's full-style output finds
nothing. -/
theorem extractPinpoints_formatted {a L N2 Y : List Char} {n0 : Char}
    (hL : L = "Lei".data ∨ L = "Lei Complementar".data ∨
      L = "Medida Provisoria".data ∨ L = "Decreto".data)
    (ha2 : a.all isDigitC = true)
    (hn0 : isDigitC n0 = true) (hN2 : N2.all isNumDot = true)
    (hY : Y.all isDigitC = true) :
    extractPinpoints ('A' :: 'r' :: 't' :: '.' :: ' ' ::
        (a ++ 'º' :: ',' :: ' ' ::
          (L ++ ' ' :: 'n' :: 'º' :: ' ' :: (n0 :: N2 ++ '/' :: Y))))
      = ⟨none, none, none⟩ := by
  have hp := pins_formatted hL ha2 hn0 hN2 hY
  unfold extractPinpoints
  rw [scanFirst_none_of (fun w hw => (hp w hw).1),
    scanFirst_none_of (fun w hw => (hp w hw).2.1),
    scanFirst_none_of (fun w hw => (hp w hw).2.2)]

/-! ### Shape of the grouped law number -/

/-- `formatLawNumber` of a nonzero number is a digit followed by digits and
dots. -/
theorem formatLawNumber_shape {n : Nat} (hn : n ≠ 0) :
    ∃ n0 N2, formatLawNumber n = n0 :: N2 ∧ isDigitC n0 = true ∧
      N2.all isNumDot = true := by
  have hne : natChars n ≠ [] := natChars_ne_nil hn
  have hall : (natChars n).all isDigitC = true := natChars_all n
  have hrevne : (natChars n).reverse ≠ [] := by simpa using hne
  have hNall : (formatLawNumber n).all isNumDot = true := by
    unfold formatLawNumber
    rw [List.all_reverse]
    refine groupRev_all ?_
    rw [List.all_reverse]
    exact hall
  cases hN : formatLawNumber n with
  | nil =>
    exfalso
    unfold formatLawNumber at hN
    rw [List.reverse_eq_nil_iff] at hN
    exact groupRev_ne_nil hrevne hN
  | cons n0 N2 =>
    refine ⟨n0, N2, rfl, ?_, ?_⟩
    · have hh : (formatLawNumber n).head? = (natChars n).head? := by
        unfold formatLawNumber
        rw [List.head?_reverse, groupRev_getLast? hrevne, List.getLast?_reverse]
      rw [hN] at hh
      cases hnc : natChars n with
      | nil => exact absurd hnc hne
      | cons m0 M =>
        rw [hnc] at hh
        have h0 : n0 = m0 := by simpa using hh
        rw [h0]
        rw [hnc] at hall
        simp only [List.all_cons, Bool.and_eq_true] at hall
        exact hall.1
    · rw [hN] at hNall
      simp only [List.all_cons, Bool.and_eq_true] at hNall
      exact hNall.2

/-! ### Inertness of the formatted string under normalization -/

/-- Every character of the formatter's full-style output is below U+00C0,
hence inert under the NFD model. -/
theorem formatted_lt192 {a L N2 Y : List Char} {n0 : Char}
    (hL : L = "Lei".data ∨ L = "Lei Complementar".data ∨
      L = "Medida Provisoria".data ∨ L = "Decreto".data)
    (ha2 : a.all isDigitC = true)
    (hn0 : isDigitC n0 = true) (hN2 : N2.all isNumDot = true)
    (hY : Y.all isDigitC = true) :
    ∀ x ∈ (('A' :: 'r' :: 't' :: '.' :: ' ' ::
        (a ++ 'º' :: ',' :: ' ' ::
          (L ++ ' ' :: 'n' :: 'º' :: ' ' :: (n0 :: N2 ++ '/' :: Y)))) : List Char),
      x.toNat < 192 := by
  intro x hx
  rcases List.mem_cons.mp hx with rfl | hx; · decide
  rcases List.mem_cons.mp hx with rfl | hx; · decide
  rcases List.mem_cons.mp hx with rfl | hx; · decide
  rcases List.mem_cons.mp hx with rfl | hx; · decide
  rcases List.mem_cons.mp hx with rfl | hx; · decide
  rcases List.mem_append.mp hx with hx2 | hx2
  · obtain ⟨h1, h2⟩ := digit_toNat (List.all_eq_true.mp ha2 _ hx2)
    omega
  rcases List.mem_cons.mp hx2 with rfl | hx2; · decide
  rcases List.mem_cons.mp hx2 with rfl | hx2; · decide
  rcases List.mem_cons.mp hx2 with rfl | hx2; · decide
  rcases List.mem_append.mp hx2 with hx3 | hx3
  · rcases hL with rfl | rfl | rfl | rfl <;>
      exact (by decide : ∀ q ∈ (_ : List Char), q.toNat < 192) x hx3
  rcases List.mem_cons.mp hx3 with rfl | hx3; · decide
  rcases List.mem_cons.mp hx3 with rfl | hx3; · decide
  rcases List.mem_cons.mp hx3 with rfl | hx3; · decide
  rcases List.mem_cons.mp hx3 with rfl | hx3; · decide
  rcases List.mem_cons.mp hx3 with rfl | hx3
  · obtain ⟨h1, h2⟩ := digit_toNat hn0
    omega
  rcases List.mem_append.mp hx3 with hx4 | hx4
  · rcases numDot_toNat (List.all_eq_true.mp hN2 _ hx4) with ⟨h1, h2⟩ | h46 <;> omega
  rcases List.mem_cons.mp hx4 with rfl | hx4; · decide
  obtain ⟨h1, h2⟩ := digit_toNat (List.all_eq_true.mp hY _ hx4)
  omega

/-- The formatter's full-style output is untouched by trimming and by
accent removal, so the parser's normalization is the identity on it. -/
theorem formatted_inert {a L N2 Y : List Char} {n0 : Char}
    (hL : L = "Lei".data ∨ L = "Lei Complementar".data ∨
      L = "Medida Provisoria".data ∨ L = "Decreto".data)
    (ha2 : a.all isDigitC = true)
    (hn0 : isDigitC n0 = true) (hN2 : N2.all isNumDot = true)
    (hY : Y.all isDigitC = true) (hYne : Y ≠ []) :
    trimList ('A' :: 'r' :: 't' :: '.' :: ' ' ::
        (a ++ 'º' :: ',' :: ' ' ::
          (L ++ ' ' :: 'n' :: 'º' :: ' ' :: (n0 :: N2 ++ '/' :: Y))))
      = ('A' :: 'r' :: 't' :: '.' :: ' ' ::
        (a ++ 'º' :: ',' :: ' ' ::
          (L ++ ' ' :: 'n' :: 'º' :: ' ' :: (n0 :: N2 ++ '/' :: Y))))
    ∧ removeAccents ('A' :: 'r' :: 't' :: '.' :: ' ' ::
        (a ++ 'º' :: ',' :: ' ' ::
          (L ++ ' ' :: 'n' :: 'º' :: ' ' :: (n0 :: N2 ++ '/' :: Y))))
      = ('A' :: 'r' :: 't' :: '.' :: ' ' ::
        (a ++ 'º' :: ',' :: ' ' ::
          (L ++ ' ' :: 'n' :: 'º' :: ' ' :: (n0 :: N2 ++ '/' :: Y)))) := by
  have hsplit : ('A' :: 'r' :: 't' :: '.' :: ' ' ::
      (a ++ 'º' :: ',' :: ' ' ::
        (L ++ ' ' :: 'n' :: 'º' :: ' ' :: (n0 :: N2 ++ '/' :: Y))) : List Char)
      = ('A' :: 'r' :: 't' :: '.' :: ' ' ::
        (a ++ 'º' :: ',' :: ' ' ::
          (L ++ ' ' :: 'n' :: 'º' :: ' ' :: (n0 :: N2 ++ ['/'])))) ++ Y := by
    simp [List.append_assoc]
  constructor
  · refine trimList_eq_self ?_ ?_
    · intro q hq
      have hq2 : some 'A' = some q := hq
      cases hq2
      decide
    · intro q hq
      rw [hsplit, List.getLast?_append_of_ne_nil _ hYne] at hq
      have hqm : q ∈ Y := by
        rw [List.getLast?_eq_head?_reverse] at hq
        exact List.mem_reverse.mp (head?_mem_of_eq hq)
      exact digit_not_ws (List.all_eq_true.mp hY _ hqm)
  · refine removeAccents_eq_self ?_
    intro x hx
    exact nfdChar_lt192 (formatted_lt192 hL ha2 hn0 hN2 hY x hx)

/-- `parseCitation` on the formatter's full-style output resolves through
the SHORT grammar with no pinpoints. -/
theorem parseCitation_formatted {a L N2 Y : List Char} {n0 : Char}
    (hL : L = "Lei".data ∨ L = "Lei Complementar".data ∨
      L = "Medida Provisoria".data ∨ L = "Decreto".data)
    (ha1 : a ≠ []) (ha2 : a.all isDigitC = true)
    (hn0 : isDigitC n0 = true) (hN2 : N2.all isNumDot = true)
    (hY : Y.all isDigitC = true) (hYne : Y ≠ []) (hY4 : 4 ≤ Y.length) :
    parseCitation ('A' :: 'r' :: 't' :: '.' :: ' ' ::
        (a ++ 'º' :: ',' :: ' ' ::
          (L ++ ' ' :: 'n' :: 'º' :: ' ' :: (n0 :: N2 ++ '/' :: Y))))
      = mkShortParsed ⟨a ++ ['º'], L, n0 :: N2, Y.take 4⟩ ⟨none, none, none⟩ := by
  obtain ⟨htrim, hacc⟩ := formatted_inert hL ha2 hn0 hN2 hY hYne
  have hnorm : normTrimmed ('A' :: 'r' :: 't' :: '.' :: ' ' ::
      (a ++ 'º' :: ',' :: ' ' ::
        (L ++ ' ' :: 'n' :: 'º' :: ' ' :: (n0 :: N2 ++ '/' :: Y))))
      = ('A' :: 'r' :: 't' :: '.' :: ' ' ::
        (a ++ 'º' :: ',' :: ' ' ::
          (L ++ ' ' :: 'n' :: 'º' :: ' ' :: (n0 :: N2 ++ '/' :: Y)))) := by
    unfold normTrimmed
    rw [htrim, hacc]
  simp only [parseCitation]
  rw [hnorm, matchID_none_of_head (by decide),
    matchFULL_formatted_none hL ha2 hn0 hN2 hY,
    matchSHORT_formatted hL ha1 ha2 hn0 hN2 hY hY4,
    extractPinpoints_formatted hL ha2 hn0 hN2 hY]

/-- Pinpoint-style formatting of a valid citation with article `a` and no
pinpoint fields. -/
theorem formatCitation_pinpoint_simple {p : ParsedCitation} {a : List Char}
    (hv : p.valid = true) (hart : p.article = some a) (ha1 : a ≠ [])
    (hp : p.paragraph = none) (hi : p.inciso = none) (hal : p.alinea = none) :
    formatCitation p .pinpoint = "Art. ".data ++ (a ++ "º".data) := by
  have hng : ¬ (¬ p.valid = true ∨ jsFalsyStr p.article = true) := by
    intro hg
    rcases hg with h | h
    · exact h hv
    · rw [hart] at h
      simp only [jsFalsyStr] at h
      exact ha1 (List.isEmpty_iff.mp h)
  have hbp : buildPinpoint p = a ++ "º".data := by
    unfold buildPinpoint
    rw [hart, hp, hi, hal]
    simp [jsFalsyStr]
  show (if ¬ p.valid ∨ jsFalsyStr p.article then [] else "Art. ".data ++ buildPinpoint p)
    = "Art. ".data ++ (a ++ "º".data)
  rw [if_neg hng, hbp]

/-- C4 (amended): the round-trip holds for valid citations of the four
dated law types with digit articles, nonzero numbers, four-digit years,
consistent `law_type`, and no pinpoint fields. -/
theorem formatCitation_roundtrip (c : ParsedCitation)
    (hv : c.valid = true)
    (ht : c.type = LawType.lei ∨ c.type = LawType.lc ∨ c.type = LawType.mp ∨
      c.type = LawType.decreto)
    (hlt : c.law_type = none ∨ c.law_type = some c.type)
    (ha : ∃ a, c.article = some a ∧ a ≠ [] ∧ a.all isDigitC = true)
    (hn : ∃ n, c.number = some n ∧ n ≠ 0)
    (hy : ∃ y, c.year = some y ∧ 1000 ≤ y)
    (hp : c.paragraph = none) (hi : c.inciso = none) (hal : c.alinea = none) :
    formatCitation (parseCitation (formatCitation c .full)) .pinpoint
      = formatCitation c .pinpoint := by
  obtain ⟨a, hart, ha1, ha2⟩ := ha
  obtain ⟨n, hnum, hn0⟩ := hn
  obtain ⟨y, hyear, hy1⟩ := hy
  obtain ⟨n0, N2, hNshape, hn00, hN2⟩ := formatLawNumber_shape hn0
  have hYall : (natChars y).all isDigitC = true := natChars_all y
  have hYne : natChars y ≠ [] := natChars_ne_nil (by omega)
  have hY4 : 4 ≤ (natChars y).length := natChars_len4 hy1
  have hcon : ¬ c.type = LawType.constituicao := by
    rcases ht with h | h | h | h <;> rw [h] <;> decide
  have hTL : ∃ Lb, TYPE_LABEL c.type = some Lb ∧
      (Lb = "Lei".data ∨ Lb = "Lei Complementar".data ∨
        Lb = "Medida Provisoria".data ∨ Lb = "Decreto".data) := by
    rcases ht with h | h | h | h <;> rw [h]
    · exact ⟨_, rfl, Or.inl rfl⟩
    · exact ⟨_, rfl, Or.inr (Or.inl rfl)⟩
    · exact ⟨_, rfl, Or.inr (Or.inr (Or.inl rfl))⟩
    · exact ⟨_, rfl, Or.inr (Or.inr (Or.inr rfl))⟩
  obtain ⟨Lb, hTLe, hLb⟩ := hTL
  have htl : ((match c.law_type with
      | some lt => TYPE_LABEL lt
      | none => TYPE_LABEL c.type) : Option (List Char)) = some Lb := by
    rcases hlt with h | h <;> rw [h] <;> exact hTLe
  have hng : ¬ (¬ c.valid = true ∨ jsFalsyStr c.article = true) := by
    intro hg
    rcases hg with h | h
    · exact h hv
    · rw [hart] at h
      simp only [jsFalsyStr] at h
      exact ha1 (List.isEmpty_iff.mp h)
  have hbpc : buildPinpoint c = a ++ "º".data := by
    unfold buildPinpoint
    rw [hart, hp, hi, hal]
    simp [jsFalsyStr]
  have hjf : jsFalsyNum c.number = false := by
    rw [hnum]
    simp [jsFalsyNum, hn0]
  have hfull : formatCitation c .full
      = trimList ("Art. ".data ++ (a ++ "º".data) ++ ", ".data ++ Lb
          ++ " nº ".data ++ formatLawNumber n ++ "/".data ++ natChars y) := by
    show (if ¬ c.valid ∨ jsFalsyStr c.article then []
      else if c.type = LawType.constituicao then
        "Art. ".data ++ buildPinpoint c ++ ", Constituicao Federal de ".data
          ++ natChars (c.year.getD 1988)
      else
        trimList ("Art. ".data ++ buildPinpoint c ++ ", ".data
          ++ ((match c.law_type with
              | some lt => TYPE_LABEL lt
              | none => TYPE_LABEL c.type) : Option (List Char)).getD "Lei".data
          ++ " nº ".data
          ++ (if jsFalsyNum c.number then [] else formatLawNumber (c.number.getD 0))
          ++ "/".data
          ++ (match c.year with
              | some z => natChars z
              | none => []))) = _
    rw [if_neg hng, if_neg hcon, hbpc, htl, Option.getD_some, hjf, hnum, hyear]
    simp only [Bool.false_eq_true, if_false, Option.getD_some]
  have hSR : "Art. ".data ++ (a ++ "º".data) ++ ", ".data ++ Lb
      ++ " nº ".data ++ formatLawNumber n ++ "/".data ++ natChars y
      = ('A' :: 'r' :: 't' :: '.' :: ' ' ::
        (a ++ 'º' :: ',' :: ' ' ::
          (Lb ++ ' ' :: 'n' :: 'º' :: ' ' :: (n0 :: N2 ++ '/' :: natChars y)))) := by
    rw [hNshape]
    simp only [List.append_assoc, List.cons_append, List.nil_append]
  obtain ⟨htrim, -⟩ := formatted_inert hLb ha2 hn00 hN2 hYall hYne
  have hfull2 : formatCitation c .full
      = ('A' :: 'r' :: 't' :: '.' :: ' ' ::
        (a ++ 'º' :: ',' :: ' ' ::
          (Lb ++ ' ' :: 'n' :: 'º' :: ' ' :: (n0 :: N2 ++ '/' :: natChars y)))) := by
    rw [hfull, hSR, htrim]
  rw [hfull2, parseCitation_formatted hLb ha1 ha2 hn00 hN2 hYall hYne hY4]
  have hro : stripOrdinal (a ++ ['º']) = a :=
    stripOrdinal_digits ha1 ha2 (Or.inr ⟨'º', rfl, by decide⟩)
  rw [formatCitation_pinpoint_simple (p := mkShortParsed
      ⟨a ++ ['º'], Lb, n0 :: N2, (natChars y).take 4⟩ ⟨none, none, none⟩)
      rfl (by show some (stripOrdinal (a ++ ['º'])) = some a; rw [hro]) ha1 rfl rfl rfl,
    formatCitation_pinpoint_simple hv hart ha1 hp hi hal]

theorem formatCitation_roundtrip_witness :
    formatCitation (parseCitation (formatCitation
      { valid := true, type := LawType.lei, number := some 13709,
        year := some 2018, article := some "1".data } .full)) .pinpoint
    = formatCitation
      { valid := true, type := LawType.lei, number := some 13709,
        year := some 2018, article := some "1".data } .pinpoint :=
  formatCitation_roundtrip
    { valid := true, type := LawType.lei, number := some 13709,
      year := some 2018, article := some "1".data }
    rfl (Or.inl rfl) (Or.inl rfl)
    ⟨"1".data, rfl, by decide, by decide⟩
    ⟨13709, rfl, by decide⟩
    ⟨2018, rfl, by decide⟩
    rfl rfl rfl

end BrazilLaw
